import Mathlib

/- Verification development for the fair-matchup scheduling engine of the
badminton-matchups repository.  The definitions below are a shallow
embedding of the relevant source code:

  * matchup_generator.py — class MatchupGenerator (Policy A: cumulative
    fairness scoring, candidate enumeration, history update);
  * app.py, endpoint get_recommendations together with its inner helper
    generate_matchup_for_players (Policy B: session-local balance scoring,
    exclusion/backfill handling, single- and dual-court modes).

Participants are name strings; Python dict/Counter lookups with default 0
are modelled as total functions into Nat; Python's stable list.sort is
modelled by a stable insertion sort (stable sorting under a fixed strict
weak order has a unique result, so this is faithful); random.shuffle is
modelled by quantifying over an arbitrary permutation of the pool. -/

namespace Badminton

/-- Participants are identified by their name strings, exactly as in the
source, where player names are the dictionary keys. -/
abbrev Player := String

/-- Canonical order-independent key for an unordered pair of players,
as produced by tuple(sorted([a, b])) in the source (and used to model
frozenset({a, b}) keys in app.py). -/
abbrev PairKey := Player × Player

/-- A team is an ordered pair in the embedding (the source passes tuples);
unordered-team facts are stated via the pairKey canonicalisation. -/
abbrev Team := Player × Player

/-- A candidate matchup: two teams. -/
abbrev Matchup := Team × Team

/-- Character comparison by code point, which is how Python compares the
characters of strings. -/
def chLT (c d : Char) : Bool := decide (c.toNat < d.toNat)

/-- Lexicographic comparison of lists induced by a base comparison; this is
Python's comparison semantics for lists and (over characters) strings:
a strict proper initial segment is smaller. -/
def lexLT (lt : α → α → Bool) : List α → List α → Bool
  | [], [] => false
  | [], _ :: _ => true
  | _ :: _, [] => false
  | a :: as, b :: bs => if lt a b then true else if lt b a then false else lexLT lt as bs

/-- Python's string comparison: lexicographic over code points. -/
def strLT (s t : Player) : Bool := lexLT chLT s.data t.data

/-- Python's comparison of lists of strings (used for the sorted 4-tuple
tie-break component of Policy B scores). -/
def listLT : List Player → List Player → Bool := lexLT strLT

/-- Insert an element into a sorted list, after all elements that do not
compare strictly greater; building block of the stable sort. -/
def insertBy (lt : α → α → Bool) (x : α) : List α → List α
  | [] => [x]
  | y :: ys => if lt x y then x :: y :: ys else y :: insertBy lt x ys

/-- Stable sort by a strict comparison (left-to-right insertion keeps
elements with equal keys in their original relative order), modelling
Python's stable list.sort / sorted. -/
def sortBy (lt : α → α → Bool) (l : List α) : List α :=
  l.foldl (fun acc x => insertBy lt x acc) []

/-- Python's sorted(...) on a list of player names. -/
def sortStr (l : List Player) : List Player := sortBy strLT l

/-- MatchupGenerator._get_pair_key: tuple(sorted([player1, player2])). -/
def pairKey (a b : Player) : PairKey := if strLT b a then (b, a) else (a, b)

/-- Scoring weight SITOUT_WEIGHT = 100 (matchup_generator.py). -/
def SITOUT_WEIGHT : Nat := 100

/-- Scoring weight PARTNERSHIP_WEIGHT = 5 (matchup_generator.py). -/
def PARTNERSHIP_WEIGHT : Nat := 5

/-- Scoring weight OPPONENT_WEIGHT = 1 (matchup_generator.py). -/
def OPPONENT_WEIGHT : Nat := 1

/-- State of a MatchupGenerator instance: the player list given to the
constructor and the three defaultdict(int) counters. -/
structure GenState where
  players : List Player
  partnership : PairKey → Nat
  opponent : PairKey → Nat
  sitout : Player → Nat

/-- MatchupGenerator._score_matchup: sit-out penalty (0 / 10 / 50*(n-1))
summed over the distinct players of self.players that are not in the
candidate's four, combined with partnership and opponent counts using the
three weights.  The set difference set(self.players) - playing_players is
modelled as filter followed by dedup; the sum over it is order-independent. -/
def scoreMatchup (g : GenState) (team1 team2 : Team) : Nat :=
  let p1 := team1.1; let p2 := team1.2; let p3 := team2.1; let p4 := team2.2
  let playing := [p1, p2, p3, p4]
  let sitting := (g.players.filter (fun p => decide (p ∉ playing))).dedup
  let partnershipScore := g.partnership (pairKey p1 p2) + g.partnership (pairKey p3 p4)
  let opponentScore := g.opponent (pairKey p1 p3) + g.opponent (pairKey p1 p4) +
    g.opponent (pairKey p2 p3) + g.opponent (pairKey p2 p4)
  let sitoutScore := sitting.foldl (fun acc p =>
    acc + (if g.sitout p = 0 then 0 else if g.sitout p = 1 then 10 else 50 * (g.sitout p - 1))) 0
  sitoutScore * SITOUT_WEIGHT + partnershipScore * PARTNERSHIP_WEIGHT +
    opponentScore * OPPONENT_WEIGHT

/-- itertools.combinations(l, 2) in its enumeration order. -/
def pairs : List α → List (α × α)
  | [] => []
  | x :: xs => (xs.map (fun y => (x, y))) ++ pairs xs

/-- itertools.combinations(l, 3) in its enumeration order. -/
def triples : List α → List (α × α × α)
  | [] => []
  | x :: xs => ((pairs xs).map (fun p => (x, p.1, p.2))) ++ triples xs

/-- itertools.combinations(l, 4) in its enumeration order. -/
def quads : List α → List (α × α × α × α)
  | [] => []
  | x :: xs => ((triples xs).map (fun t => (x, t.1, t.2.1, t.2.2))) ++ quads xs

/-- The candidate matchups tried by MatchupGenerator.generate_matchup, in
its exact enumeration order: team1 ranges over combinations(players, 2),
team2 over combinations of the players not in team1 (list order kept). -/
def candidates (players : List Player) : List Matchup :=
  (pairs players).flatMap (fun t1 =>
    (pairs (players.filter (fun p => decide (¬ (p = t1.1 ∨ p = t1.2))))).map (fun t2 => (t1, t2)))

/-- One step of the best-so-far fold in generate_matchup: replace the
incumbent only on a strictly smaller score (score < best_score); none
models the initial best_score = float('inf'). -/
def selStep (g : GenState) (acc : Option (Matchup × Nat)) (c : Matchup) : Option (Matchup × Nat) :=
  let s := scoreMatchup g c.1 c.2
  match acc with
  | none => some (c, s)
  | some (m, bs) => if s < bs then some (c, s) else some (m, bs)

/-- MatchupGenerator.generate_matchup, selection part: fold the candidates
with the strict-improvement step and return the best matchup (the history
mutation it performs afterwards is modelled separately by updateHistory). -/
def generateMatchup (g : GenState) : Option Matchup :=
  ((candidates g.players).foldl (selStep g) none).map (fun x => x.1)

/-- Point update of a counter: dict[k] += 1 on a defaultdict(int). -/
def bump [DecidableEq α] (f : α → Nat) (k : α) : α → Nat :=
  fun x => if x = k then f k + 1 else f x

/-- The four fairness counters of the History data model.  The first three
live in MatchupGenerator (partnership_count, opponent_count, sitout_count);
gamesPlayed is the total_games Counter maintained by the session-match
replay loop of get_recommendations in app.py. -/
structure Hist where
  partnership : PairKey → Nat
  opponent : PairKey → Nat
  sitout : Player → Nat
  gamesPlayed : Player → Nat

/-- recordRound of the History Tracker.  The partnership, opponent and
sitout updates are MatchupGenerator._update_history verbatim (two
partnership bumps, four cross-pair opponent bumps, one sitout bump for
each distinct eligible player not among the four); the gamesPlayed update
is the replay loop of get_recommendations (app.py), which bumps
total_games once for each member of team1 and of team2. -/
def recordRound (h : Hist) (eligible : List Player) (team1 team2 : Team) : Hist :=
  let p1 := team1.1; let p2 := team1.2; let p3 := team2.1; let p4 := team2.2
  let playing := [p1, p2, p3, p4]
  let sitting := (eligible.filter (fun p => decide (p ∉ playing))).dedup
  { partnership := bump (bump h.partnership (pairKey p1 p2)) (pairKey p3 p4)
    opponent := bump (bump (bump (bump h.opponent (pairKey p1 p3)) (pairKey p1 p4))
      (pairKey p2 p3)) (pairKey p2 p4)
    sitout := fun p => h.sitout p + (if p ∈ sitting then 1 else 0)
    gamesPlayed := bump (bump (bump (bump h.gamesPlayed p1) p2) p3) p4 }

/-- Score tuple of Policy B (generate_matchup_for_players in app.py):
(worst partnership count, total partnership count, games balance, sorted
4-identifier list), compared lexicographically, lower is better. -/
abbrev ScoreB := Nat × Nat × Nat × List Player

/-- Strict comparison of natural numbers as a Bool. -/
def natLT (a b : Nat) : Bool := decide (a < b)

/-- Python's lexicographic comparison of a pair: first components decide
unless they are order-equivalent, then the second components decide. -/
def pairLT (ltA : α → α → Bool) (ltB : β → β → Bool) (x y : α × β) : Bool :=
  if ltA x.1 y.1 then true else if ltA y.1 x.1 then false else ltB x.2 y.2

/-- Python's comparison of Policy B score tuples: the three Nat components
then the sorted 4-identifier list, lexicographically. -/
def scoreLT : ScoreB → ScoreB → Bool :=
  pairLT natLT (pairLT natLT (pairLT natLT listLT))

/-- Key for a frozenset({a, b}) Counter lookup: the canonical sorted pair. -/
def fkey (t : Team) : PairKey := pairKey t.1 t.2

/-- The matchup dictionaries built by generate_matchup_for_players
(app.py): score tuple, the two team lists, the two partnership counts, and
the players entry (a set in the source, stored but never read afterwards;
modelled as the 4-list in enumeration order). -/
structure Cand where
  score : ScoreB
  team_a : List Player
  team_b : List Player
  count_a : Nat
  count_b : Nat
  players : List Player
  deriving DecidableEq

/-- The three 2v2 partitions of a 4-player combination, in the order the
source lists them: (p1p2|p3p4), (p1p3|p2p4), (p1p4|p2p3). -/
def partitionsOf (p1 p2 p3 p4 : Player) : List Matchup :=
  [((p1, p2), (p3, p4)), ((p1, p3), (p2, p4)), ((p1, p4), (p2, p3))]

/-- The candidate dictionaries one 4-player combination contributes in
generate_matchup_for_players: one Cand per partition, with Policy B score. -/
def mkCands (pc : PairKey → Nat) (tg : Player → Nat)
    (q : Player × Player × Player × Player) : List Cand :=
  let p1 := q.1; let p2 := q.2.1; let p3 := q.2.2.1; let p4 := q.2.2.2
  (partitionsOf p1 p2 p3 p4).map (fun s =>
    let ta := s.1; let tb := s.2
    let ca := pc (fkey ta); let cb := pc (fkey tb)
    let ga := tg ta.1 + tg ta.2; let gb := tg tb.1 + tg tb.2
    let gbal := ((ga : Int) - (gb : Int)).natAbs
    { score := (max ca cb, ca + cb, gbal, sortStr [p1, p2, p3, p4])
      team_a := [ta.1, ta.2]
      team_b := [tb.1, tb.2]
      count_a := ca
      count_b := cb
      players := [p1, p2, p3, p4] })

/-- The all_matchups list of generate_matchup_for_players: every 4-player
combination, each contributing its three partitions, in source order. -/
def allMatchups (players : List Player) (pc : PairKey → Nat) (tg : Player → Nat) : List Cand :=
  (quads players).flatMap (mkCands pc tg)

/-- generate_matchup_for_players: None when there are no candidates,
otherwise the head of the stable sort of all_matchups by score. -/
def genMatchupForPlayers (players : List Player) (pc : PairKey → Nat) (tg : Player → Nat) :
    Option Cand :=
  match sortBy (fun a b => scoreLT a.score b.score) (allMatchups players pc tg) with
  | [] => none
  | c :: _ => some c

/-- The matchup dictionaries of the alternatives enumeration in the
single-court section of get_recommendations (app.py, second enumeration):
identical fields except that no players entry is stored. -/
structure CandAlt where
  score : ScoreB
  team_a : List Player
  team_b : List Player
  count_a : Nat
  count_b : Nat
  deriving DecidableEq

/-- Forgetting the players entry turns a best-pick candidate dictionary
into an alternatives dictionary. -/
def projAlt (c : Cand) : CandAlt :=
  { score := c.score, team_a := c.team_a, team_b := c.team_b
    count_a := c.count_a, count_b := c.count_b }

/-- The all_matchups_for_alternatives list of get_recommendations: a second
enumeration over the same players with the same Policy B score. -/
def allMatchupsAlt (players : List Player) (pc : PairKey → Nat) (tg : Player → Nat) :
    List CandAlt :=
  (quads players).flatMap (fun q =>
    let p1 := q.1; let p2 := q.2.1; let p3 := q.2.2.1; let p4 := q.2.2.2
    (partitionsOf p1 p2 p3 p4).map (fun s =>
      let ta := s.1; let tb := s.2
      let ca := pc (fkey ta); let cb := pc (fkey tb)
      let ga := tg ta.1 + tg ta.2; let gb := tg tb.1 + tg tb.2
      let gbal := ((ga : Int) - (gb : Int)).natAbs
      { score := (max ca cb, ca + cb, gbal, sortStr [p1, p2, p3, p4])
        team_a := [ta.1, ta.2]
        team_b := [tb.1, tb.2]
        count_a := ca
        count_b := cb }))

/-- The recommendations list returned alongside the single-court best pick:
the alternatives enumeration, stably sorted ascending by score, first 10. -/
def recsList (players : List Player) (pc : PairKey → Nat) (tg : Player → Nat) : List CandAlt :=
  (sortBy (fun a b => scoreLT a.score b.score) (allMatchupsAlt players pc tg)).take 10

/-- Responses of the get_recommendations endpoint.  err models the
jsonify({error: ...}), 400 return; noContent the ('', 204) return; single
the single-court JSON body (team_a, team_b, player_ids, recommendations);
dual the dual-court JSON body (two courts and the flattened player_ids).
The human-readable explanation strings are presentation only and are not
modelled. -/
inductive Resp where
  | err (msg : String) (code : Nat)
  | noContent
  | single (team_a team_b player_ids : List Player) (recs : List CandAlt)
  | dual (court1_team_a court1_team_b court2_team_a court2_team_b player_ids : List Player)
  deriving DecidableEq

/-- The single-court section of get_recommendations (app.py, bottom):
best pick via generate_matchup_for_players over the given players, 204 if
none, else the JSON body with player_ids = team_a ++ team_b and the top-10
alternatives list. -/
def singleCourt (players : List Player) (pc : PairKey → Nat) (tg : Player → Nat) : Resp :=
  match genMatchupForPlayers players pc tg with
  | none => Resp.noContent
  | some best =>
      Resp.single best.team_a best.team_b (best.team_a ++ best.team_b) (recsList players pc tg)

/-- The dual-court section of get_recommendations: take the first 8 of the
shuffled pool, first court from its first 4, second court from its last 4;
if the first selection fails return 204; if the second selection fails fall
through to the single-court section, which operates on players (the full
active pool in dual mode), not on the first group of 4. -/
def dualCourtBranch (players shuffled : List Player) (pc : PairKey → Nat) (tg : Player → Nat) :
    Resp :=
  let selected8 := shuffled.take 8
  match genMatchupForPlayers (selected8.take 4) pc tg with
  | none => Resp.noContent
  | some fm =>
      match genMatchupForPlayers (selected8.drop 4) pc tg with
      | some sm =>
          Resp.dual fm.team_a fm.team_b sm.team_a sm.team_b
            (fm.team_a ++ fm.team_b ++ sm.team_a ++ sm.team_b)
      | none => singleCourt players pc tg

/-- The backfill reordering of the single-court exclusion handling
(app.py): rank all active players ascending by total games (stable, so
list order breaks ties), then list the non-excluded ones first and the
excluded ones after, both in that ranked order. -/
def backfillOrder (allActive excluded : List Player) (tg : Player → Nat) : List Player :=
  let pw := allActive.map (fun p => (p, tg p))
  let pwSorted := sortBy (fun a b => decide (a.2 < b.2)) pw
  ((pwSorted.filter (fun x => decide (x.1 ∉ excluded))) ++
    (pwSorted.filter (fun x => decide (x.1 ∈ excluded)))).map (fun x => x.1)

/-- The eligible player list used by the single-court mode: filter out the
exclusions; if fewer than 4 remain and something was excluded, take the
backfill reordering (of the whole pool); if still fewer than 4, fall back
to the whole pool when it has at least 4 members, else fail. -/
def eligiblePlayers (allActive excluded : List Player) (tg : Player → Nat) :
    Option (List Player) :=
  let players := allActive.filter (fun p => decide (p ∉ excluded))
  let players :=
    if players.length < 4 ∧ excluded ≠ [] then backfillOrder allActive excluded tg else players
  if players.length < 4 then
    if 4 ≤ allActive.length then some allActive else none
  else some players

/-- The deterministic part of the get_recommendations endpoint, with the
outcome of random.shuffle supplied as the shuffled argument (used only in
dual-court mode) and the transient session counters pc (partnerships) and
tg (total games) already built.  Dual-court mode activates exactly when
the active pool has at least 8 members and ignores the exclusions. -/
def getRecommendations (allActive excluded shuffled : List Player)
    (pc : PairKey → Nat) (tg : Player → Nat) : Resp :=
  if 8 ≤ allActive.length then dualCourtBranch allActive shuffled pc tg
  else
    match eligiblePlayers allActive excluded tg with
    | none => Resp.err "Not enough players" 400
    | some players => singleCourt players pc tg

/-- Whether a response is the hard-failure (HTTP error) shape. -/
def Resp.isErr : Resp → Bool
  | Resp.err _ _ => true
  | _ => false

/-- Spec-side per-player sit-out penalty, following the specification text:
no penalty for a player who has never sat out, a fixed mid penalty (10)
for exactly one sit-out, and a linearly growing penalty (50 per additional
sit-out) beyond that. -/
def sitoutPenalty (n : Nat) : Nat :=
  if n = 0 then 0 else if n = 1 then 10 else 50 * (n - 1)

/-- Spec-side sit-out term of Policy A: the sum of the penalties of every
distinct eligible participant not among the candidate's four. -/
def sitoutTerm (g : GenState) (team1 team2 : Team) : Nat :=
  let playing := [team1.1, team1.2, team2.1, team2.2]
  (((g.players.filter (fun p => decide (p ∉ playing))).dedup).map
    (fun p => sitoutPenalty (g.sitout p))).sum

/-- Spec-side partnership term of Policy A: the sum of the two teams'
partnership counts. -/
def partnershipTerm (g : GenState) (team1 team2 : Team) : Nat :=
  g.partnership (pairKey team1.1 team1.2) + g.partnership (pairKey team2.1 team2.2)

/-- Spec-side opponent term of Policy A: the sum of the opponent counts of
the four cross pairs between the two teams. -/
def opponentTerm (g : GenState) (team1 team2 : Team) : Nat :=
  g.opponent (pairKey team1.1 team2.1) + g.opponent (pairKey team1.1 team2.2) +
    g.opponent (pairKey team1.2 team2.1) + g.opponent (pairKey team1.2 team2.2)

/-- Spec-side worst-partnership term of Policy B. -/
def worstPartnershipTerm (pc : PairKey → Nat) (ta tb : Team) : Nat :=
  max (pc (fkey ta)) (pc (fkey tb))

/-- Spec-side total-partnership term of Policy B. -/
def totalPartnershipTerm (pc : PairKey → Nat) (ta tb : Team) : Nat :=
  pc (fkey ta) + pc (fkey tb)

/-- Spec-side games-balance term of Policy B: the absolute difference
between the summed games played of the two teams, written as a Nat
difference of max and min. -/
def gamesBalanceTerm (tg : Player → Nat) (ta tb : Team) : Nat :=
  max (tg ta.1 + tg ta.2) (tg tb.1 + tg tb.2) - min (tg ta.1 + tg ta.2) (tg tb.1 + tg tb.2)

/-- The ordered list of the four players of a 4-combination. -/
def quadList (q : Player × Player × Player × Player) : List Player :=
  [q.1, q.2.1, q.2.2.1, q.2.2.2]

/-- Two ordered team pairs denote the same unordered team. -/
def teamEqv (s t : Team) : Prop :=
  (s.1 = t.1 ∧ s.2 = t.2) ∨ (s.1 = t.2 ∧ s.2 = t.1)

/-- Two candidate matchups denote the same unordered split into two
unordered teams. -/
def splitEqv (x y : Matchup) : Prop :=
  (teamEqv x.1 y.1 ∧ teamEqv x.2 y.2) ∨ (teamEqv x.1 y.2 ∧ teamEqv x.2 y.1)

/-- The non-strict order associated with a strict Bool comparison. -/
def leOf (lt : α → α → Bool) (a b : α) : Prop := lt b a = false

/-- The exactness contract of the candidate enumeration over an eligible
list l: every enumerated 4-combination is a (order-preserving) sub-list
of l; every choice of 4 distinct members of l is enumerated; no
4-combination is enumerated twice (not even as a permutation); and for
each 4-combination the three listed partitions are pairwise inequivalent
splits whose players are exactly the 4-combination, and every split of
those 4 players into two teams of two is equivalent to one of the three. -/
def EnumerationSpec (l : List Player) : Prop :=
  (∀ q ∈ quads l, (quadList q).Sublist l) ∧
  (∀ w x y z : Player, w ∈ l → x ∈ l → y ∈ l → z ∈ l →
    w ≠ x → w ≠ y → w ≠ z → x ≠ y → x ≠ z → y ≠ z →
    ∃ q ∈ quads l, List.Perm (quadList q) [w, x, y, z]) ∧
  (∀ q1 ∈ quads l, ∀ q2 ∈ quads l, List.Perm (quadList q1) (quadList q2) → q1 = q2) ∧
  (quads l).Nodup ∧
  (∀ q ∈ quads l,
    (partitionsOf q.1 q.2.1 q.2.2.1 q.2.2.2).length = 3 ∧
    (∀ m ∈ partitionsOf q.1 q.2.1 q.2.2.1 q.2.2.2,
      List.Perm [m.1.1, m.1.2, m.2.1, m.2.2] (quadList q)) ∧
    List.Pairwise (fun m1 m2 => ¬ splitEqv m1 m2) (partitionsOf q.1 q.2.1 q.2.2.1 q.2.2.2) ∧
    (∀ t1 t2 : Team, List.Perm [t1.1, t1.2, t2.1, t2.2] (quadList q) →
      ∃ m ∈ partitionsOf q.1 q.2.1 q.2.2.1 q.2.2.2, splitEqv (t1, t2) m))

/-- An empty pair counter (a fresh defaultdict(int) or Counter). -/
def zeroPairCount : PairKey → Nat := fun _ => 0

/-- An empty per-player counter (a fresh defaultdict(int) or Counter). -/
def zeroPlayerCount : Player → Nat := fun _ => 0

/-- A freshly constructed MatchupGenerator (empty history), as produced by
MatchupGenerator.__init__ or reset_history. -/
def freshGen (players : List Player) : GenState :=
  { players := players, partnership := zeroPairCount, opponent := zeroPairCount
    sitout := zeroPlayerCount }

/-- The empty History (all four counters zero). -/
def emptyHist : Hist :=
  { partnership := zeroPairCount, opponent := zeroPairCount
    sitout := zeroPlayerCount, gamesPlayed := zeroPlayerCount }

/-- The dual-court contract for one call with a pool of at least 8 active
players: the response is a dual-court body whose flattened player_ids list
is the concatenation of the four team lists, has 8 pairwise-distinct
members all drawn from the active pool, the two courts share no player,
exactly pool-size minus 8 active players are left out of the cycle, and
the response does not depend on the supplied exclusion set. -/
def DualCourtSpec (allActive excluded shuffled : List Player)
    (pc : PairKey → Nat) (tg : Player → Nat) : Prop :=
  ∃ c1a c1b c2a c2b pids,
    getRecommendations allActive excluded shuffled pc tg = Resp.dual c1a c1b c2a c2b pids ∧
    pids = c1a ++ c1b ++ c2a ++ c2b ∧
    pids.length = 8 ∧ pids.Nodup ∧
    (∀ p ∈ pids, p ∈ allActive) ∧
    (∀ p ∈ c1a ++ c1b, p ∉ c2a ++ c2b) ∧
    (allActive.filter (fun p => decide (p ∉ pids))).length = allActive.length - 8 ∧
    getRecommendations allActive excluded shuffled pc tg =
      getRecommendations allActive [] shuffled pc tg

/-- The increment contract of recordRound for a round played by the four
players p1, p2 (team 1) and p3, p4 (team 2): the two team pair keys gain
exactly 1 partnership count, the four cross pair keys gain exactly 1
opponent count, the four players gain exactly 1 games-played count, every
eligible non-player gains exactly 1 sit-out count; every other counter
entry is unchanged and no entry decreases. -/
def RecordRoundSpec (hist : Hist) (eligible : List Player) (p1 p2 p3 p4 : Player) : Prop :=
  let r := recordRound hist eligible (p1, p2) (p3, p4)
  (r.partnership (pairKey p1 p2) = hist.partnership (pairKey p1 p2) + 1 ∧
    r.partnership (pairKey p3 p4) = hist.partnership (pairKey p3 p4) + 1 ∧
    ∀ k, k ≠ pairKey p1 p2 → k ≠ pairKey p3 p4 → r.partnership k = hist.partnership k) ∧
  (r.opponent (pairKey p1 p3) = hist.opponent (pairKey p1 p3) + 1 ∧
    r.opponent (pairKey p1 p4) = hist.opponent (pairKey p1 p4) + 1 ∧
    r.opponent (pairKey p2 p3) = hist.opponent (pairKey p2 p3) + 1 ∧
    r.opponent (pairKey p2 p4) = hist.opponent (pairKey p2 p4) + 1 ∧
    ∀ k, k ≠ pairKey p1 p3 → k ≠ pairKey p1 p4 → k ≠ pairKey p2 p3 → k ≠ pairKey p2 p4 →
      r.opponent k = hist.opponent k) ∧
  (r.gamesPlayed p1 = hist.gamesPlayed p1 + 1 ∧ r.gamesPlayed p2 = hist.gamesPlayed p2 + 1 ∧
    r.gamesPlayed p3 = hist.gamesPlayed p3 + 1 ∧ r.gamesPlayed p4 = hist.gamesPlayed p4 + 1 ∧
    ∀ p, p ≠ p1 → p ≠ p2 → p ≠ p3 → p ≠ p4 → r.gamesPlayed p = hist.gamesPlayed p) ∧
  ((∀ p, p ∈ eligible → p ≠ p1 → p ≠ p2 → p ≠ p3 → p ≠ p4 → r.sitout p = hist.sitout p + 1) ∧
    (∀ p, p ∉ eligible → r.sitout p = hist.sitout p) ∧
    (∀ p, p = p1 ∨ p = p2 ∨ p = p3 ∨ p = p4 → r.sitout p = hist.sitout p)) ∧
  ((∀ k, hist.partnership k ≤ r.partnership k) ∧ (∀ k, hist.opponent k ≤ r.opponent k) ∧
    (∀ p, hist.sitout p ≤ r.sitout p) ∧ (∀ p, hist.gamesPlayed p ≤ r.gamesPlayed p))

theorem chLT_asymm (a b : Char) (h : chLT a b = true) : chLT b a = false := by
  simp only [chLT, decide_eq_true_eq, decide_eq_false_iff_not, not_lt] at h ⊢
  omega

theorem chLT_negtrans (a b c : Char) (h : chLT a c = true) :
    chLT a b = true ∨ chLT b c = true := by
  simp only [chLT, decide_eq_true_eq] at h ⊢
  omega

theorem lexLT_asymm (lt : α → α → Bool) (hasym : ∀ a b, lt a b = true → lt b a = false) :
    ∀ l1 l2, lexLT lt l1 l2 = true → lexLT lt l2 l1 = false := by
  intro l1
  induction l1 with
  | nil => intro l2 h; cases l2 with
    | nil => simp [lexLT] at h
    | cons b bs => simp [lexLT]
  | cons a as ih =>
    intro l2 h
    cases l2 with
    | nil => simp [lexLT] at h
    | cons b bs =>
      simp only [lexLT] at h ⊢
      by_cases hab : lt a b = true
      · have hba := hasym _ _ hab
        simp [hab, hba]
      · have hab' : lt a b = false := by simpa using hab
        simp only [hab', if_false] at h
        by_cases hba : lt b a = true
        · simp [hba] at h
        · have hba' : lt b a = false := by simpa using hba
          simp only [hba', if_false] at h ⊢
          simp [hab', ih bs h]

theorem lexLT_negtrans (lt : α → α → Bool)
    (hneg : ∀ a b c, lt a c = true → lt a b = true ∨ lt b c = true) :
    ∀ l1 l2 l3, lexLT lt l1 l3 = true → lexLT lt l1 l2 = true ∨ lexLT lt l2 l3 = true := by
  intro l1
  induction l1 with
  | nil =>
    intro l2 l3 h
    cases l3 with
    | nil => simp [lexLT] at h
    | cons c cs =>
      cases l2 with
      | nil => right; simp [lexLT]
      | cons b bs => left; simp [lexLT]
  | cons a as ih =>
    intro l2 l3 h
    cases l3 with
    | nil => simp [lexLT] at h
    | cons c cs =>
      cases l2 with
      | nil => right; simp [lexLT]
      | cons b bs =>
        simp only [lexLT] at h ⊢
        by_cases hac : lt a c = true
        · rcases hneg a b c hac with hab | hbc
          · left; simp [hab]
          · right; simp [hbc]
        · have hac' : lt a c = false := by simpa using hac
          simp only [hac', if_false] at h
          by_cases hca : lt c a = true
          · simp [hca] at h
          · have hca' : lt c a = false := by simpa using hca
            simp only [hca', if_false] at h
            by_cases hab : lt a b = true
            · left; simp [hab]
            · have hab' : lt a b = false := by simpa using hab
              by_cases hba : lt b a = true
              · right
                rcases hneg b c a hba with h1 | h2
                · simp [h1]
                · rw [h2] at hca'; cases hca'
              · have hba' : lt b a = false := by simpa using hba
                have hbc' : lt b c = false := by
                  by_contra hbc
                  have hbc : lt b c = true := by simpa using hbc
                  rcases hneg b a c hbc with h1 | h2
                  · rw [h1] at hba'; cases hba'
                  · rw [h2] at hac'; cases hac'
                have hcb' : lt c b = false := by
                  by_contra hcb
                  have hcb : lt c b = true := by simpa using hcb
                  rcases hneg c a b hcb with h1 | h2
                  · rw [h1] at hca'; cases hca'
                  · rw [h2] at hab'; cases hab'
                rcases ih bs cs h with h1 | h2
                · left; simp [hab', hba', h1]
                · right; simp [hbc', hcb', h2]

theorem strLT_asymm (a b : Player) (h : strLT a b = true) : strLT b a = false :=
  lexLT_asymm chLT chLT_asymm _ _ h

theorem strLT_negtrans (a b c : Player) (h : strLT a c = true) :
    strLT a b = true ∨ strLT b c = true :=
  lexLT_negtrans chLT (fun x y z hx => chLT_negtrans x y z hx) _ _ _ h

theorem listLT_asymm (a b : List Player) (h : listLT a b = true) : listLT b a = false :=
  lexLT_asymm strLT strLT_asymm _ _ h

theorem listLT_negtrans (a b c : List Player) (h : listLT a c = true) :
    listLT a b = true ∨ listLT b c = true :=
  lexLT_negtrans strLT strLT_negtrans _ _ _ h

theorem natLT_asymm (a b : Nat) (h : natLT a b = true) : natLT b a = false := by
  simp only [natLT, decide_eq_true_eq, decide_eq_false_iff_not, not_lt] at h ⊢
  omega

theorem natLT_negtrans (a b c : Nat) (h : natLT a c = true) :
    natLT a b = true ∨ natLT b c = true := by
  simp only [natLT, decide_eq_true_eq] at h ⊢
  omega

theorem pairLT_asymm (ltA : α → α → Bool) (ltB : β → β → Bool)
    (hA : ∀ a b, ltA a b = true → ltA b a = false)
    (hB : ∀ a b, ltB a b = true → ltB b a = false)
    (x y : α × β) (h : pairLT ltA ltB x y = true) : pairLT ltA ltB y x = false := by
  simp only [pairLT] at h ⊢
  by_cases h1 : ltA x.1 y.1 = true
  · simp [h1, hA _ _ h1]
  · have h1' : ltA x.1 y.1 = false := by simpa using h1
    simp only [h1', if_false] at h
    by_cases h2 : ltA y.1 x.1 = true
    · simp [h2] at h
    · have h2' : ltA y.1 x.1 = false := by simpa using h2
      simp only [h2', if_false] at h
      simp [h1', h2', hB _ _ h]

theorem pairLT_negtrans (ltA : α → α → Bool) (ltB : β → β → Bool)
    (hA : ∀ a b c, ltA a c = true → ltA a b = true ∨ ltA b c = true)
    (hB : ∀ a b c, ltB a c = true → ltB a b = true ∨ ltB b c = true)
    (x y z : α × β) (h : pairLT ltA ltB x z = true) :
    pairLT ltA ltB x y = true ∨ pairLT ltA ltB y z = true := by
  simp only [pairLT] at h ⊢
  by_cases hac : ltA x.1 z.1 = true
  · rcases hA x.1 y.1 z.1 hac with hab | hbc
    · left; simp [hab]
    · right; simp [hbc]
  · have hac' : ltA x.1 z.1 = false := by simpa using hac
    simp only [hac', if_false] at h
    by_cases hca : ltA z.1 x.1 = true
    · simp [hca] at h
    · have hca' : ltA z.1 x.1 = false := by simpa using hca
      simp only [hca', if_false] at h
      by_cases hab : ltA x.1 y.1 = true
      · left; simp [hab]
      · have hab' : ltA x.1 y.1 = false := by simpa using hab
        by_cases hba : ltA y.1 x.1 = true
        · right
          rcases hA y.1 z.1 x.1 hba with h1 | h2
          · simp [h1]
          · rw [h2] at hca'; cases hca'
        · have hba' : ltA y.1 x.1 = false := by simpa using hba
          have hbc' : ltA y.1 z.1 = false := by
            by_contra hbc
            have hbc : ltA y.1 z.1 = true := by simpa using hbc
            rcases hA y.1 x.1 z.1 hbc with h1 | h2
            · rw [h1] at hba'; cases hba'
            · rw [h2] at hac'; cases hac'
          have hcb' : ltA z.1 y.1 = false := by
            by_contra hcb
            have hcb : ltA z.1 y.1 = true := by simpa using hcb
            rcases hA z.1 x.1 y.1 hcb with h1 | h2
            · rw [h1] at hca'; cases hca'
            · rw [h2] at hab'; cases hab'
          rcases hB x.2 y.2 z.2 h with h1 | h2
          · left; simp [hab', hba', h1]
          · right; simp [hbc', hcb', h2]

theorem scoreLT_asymm (s t : ScoreB) (h : scoreLT s t = true) : scoreLT t s = false := by
  refine pairLT_asymm _ _ natLT_asymm ?_ s t h
  intro a b hab
  refine pairLT_asymm _ _ natLT_asymm ?_ a b hab
  intro a b hab
  exact pairLT_asymm _ _ natLT_asymm listLT_asymm a b hab

theorem scoreLT_negtrans (s t u : ScoreB) (h : scoreLT s u = true) :
    scoreLT s t = true ∨ scoreLT t u = true := by
  refine pairLT_negtrans _ _ natLT_negtrans ?_ s t u h
  intro a b c hac
  refine pairLT_negtrans _ _ natLT_negtrans ?_ a b c hac
  intro a b c hac
  exact pairLT_negtrans _ _ natLT_negtrans listLT_negtrans a b c hac

theorem insertBy_perm (lt : α → α → Bool) (x : α) (l : List α) :
    List.Perm (insertBy lt x l) (x :: l) := by
  induction l with
  | nil => simp [insertBy]
  | cons y ys ih =>
    simp only [insertBy]
    by_cases h : lt x y = true
    · simp [h]
    · have h' : lt x y = false := by simpa using h
      simp only [h', if_false]
      exact (ih.cons y).trans (List.Perm.swap x y ys)

theorem sortBy_foldl_perm (lt : α → α → Bool) (l acc : List α) :
    List.Perm (l.foldl (fun acc x => insertBy lt x acc) acc) (l ++ acc) := by
  induction l generalizing acc with
  | nil => simp
  | cons x t ih =>
    simp only [List.foldl_cons, List.cons_append]
    refine (ih (insertBy lt x acc)).trans ?_
    refine (List.Perm.append_left t (insertBy_perm lt x acc)).trans ?_
    exact List.perm_middle

theorem sortBy_perm (lt : α → α → Bool) (l : List α) : List.Perm (sortBy lt l) l := by
  have h := sortBy_foldl_perm lt l []
  simpa [sortBy] using h

theorem pairwise_insertBy (lt : α → α → Bool)
    (hasym : ∀ a b, lt a b = true → lt b a = false)
    (hneg : ∀ a b c, lt a c = true → lt a b = true ∨ lt b c = true)
    (x : α) (l : List α) (hl : l.Pairwise (leOf lt)) :
    (insertBy lt x l).Pairwise (leOf lt) := by
  induction l with
  | nil => simp [insertBy, List.pairwise_singleton]
  | cons y ys ih =>
    rcases List.pairwise_cons.mp hl with ⟨hy, hys⟩
    simp only [insertBy]
    by_cases h : lt x y = true
    · simp only [h, if_true]
      refine List.pairwise_cons.mpr ⟨?_, hl⟩
      intro z hz
      rcases List.mem_cons.mp hz with rfl | hz
      · exact hasym _ _ h
      · have hyz := hy z hz
        unfold leOf at hyz ⊢
        by_contra hzx
        have hzx : lt z x = true := by simpa using hzx
        rcases hneg z y x hzx with h1 | h2
        · rw [h1] at hyz; cases hyz
        · rw [hasym _ _ h] at h2; cases h2
    · have h' : lt x y = false := by simpa using h
      simp only [h', if_false]
      refine List.pairwise_cons.mpr ⟨?_, ih hys⟩
      intro z hz
      have hz' : z = x ∨ z ∈ ys := by
        have := (insertBy_perm lt x ys).mem_iff.mp hz
        simpa using this
      rcases hz' with rfl | hz'
      · exact h'
      · exact hy z hz'

theorem sortBy_pairwise (lt : α → α → Bool)
    (hasym : ∀ a b, lt a b = true → lt b a = false)
    (hneg : ∀ a b c, lt a c = true → lt a b = true ∨ lt b c = true)
    (l : List α) : (sortBy lt l).Pairwise (leOf lt) := by
  suffices h : ∀ (l acc : List α), acc.Pairwise (leOf lt) →
      (l.foldl (fun acc x => insertBy lt x acc) acc).Pairwise (leOf lt) by
    exact h l [] List.Pairwise.nil
  intro l
  induction l with
  | nil => intro acc hacc; simpa using hacc
  | cons x t ih =>
    intro acc hacc
    simp only [List.foldl_cons]
    exact ih _ (pairwise_insertBy lt hasym hneg x acc hacc)

theorem insertBy_map (lt : α → α → Bool) (lt' : β → β → Bool) (f : α → β)
    (hf : ∀ a b, lt' (f a) (f b) = lt a b) (x : α) (l : List α) :
    insertBy lt' (f x) (l.map f) = (insertBy lt x l).map f := by
  induction l with
  | nil => simp [insertBy]
  | cons y ys ih =>
    simp only [List.map_cons, insertBy, hf]
    by_cases h : lt x y = true
    · simp [h]
    · have h' : lt x y = false := by simpa using h
      simp [h', ih]

theorem sortBy_map (lt : α → α → Bool) (lt' : β → β → Bool) (f : α → β)
    (hf : ∀ a b, lt' (f a) (f b) = lt a b) (l : List α) :
    sortBy lt' (l.map f) = (sortBy lt l).map f := by
  suffices h : ∀ (l acc : List α),
      (l.map f).foldl (fun acc x => insertBy lt' x acc) (acc.map f) =
        (l.foldl (fun acc x => insertBy lt x acc) acc).map f by
    simpa [sortBy] using h l []
  intro l
  induction l with
  | nil => intro acc; simp
  | cons x t ih =>
    intro acc
    simp only [List.map_cons, List.foldl_cons]
    rw [insertBy_map lt lt' f hf, ih]

theorem foldl_add_eq_sum (f : α → Nat) (l : List α) (n : Nat) :
    l.foldl (fun acc p => acc + f p) n = n + (l.map f).sum := by
  induction l generalizing n with
  | nil => simp
  | cons x t ih => simp [ih, Nat.add_assoc]

theorem natAbs_sub_eq_max_sub_min (a b : Nat) :
    ((a : Int) - (b : Int)).natAbs = max a b - min a b := by
  omega

/-- C1: for every candidate matchup and every history state, Policy A's
score (MatchupGenerator._score_matchup) equals
sitoutTerm * 100 + partnershipTerm * 5 + opponentTerm * 1, where the
sit-out term sums, over every eligible participant not among the
candidate's four, a penalty of 0 for sitoutCount 0, the fixed mid penalty
10 for sitoutCount exactly 1, and the linearly growing penalty 50*(n-1)
beyond that; the partnership term is the sum of the two teams'
partnership counts and the opponent term the sum over the four cross
pairs. -/
theorem policyA_score_decomposition (g : GenState) (team1 team2 : Team) :
    scoreMatchup g team1 team2 =
      sitoutTerm g team1 team2 * 100 + partnershipTerm g team1 team2 * 5 +
        opponentTerm g team1 team2 * 1 := by
  simp only [scoreMatchup, sitoutTerm, partnershipTerm, opponentTerm, sitoutPenalty,
    SITOUT_WEIGHT, PARTNERSHIP_WEIGHT, OPPONENT_WEIGHT]
  rw [foldl_add_eq_sum]
  simp

/-- C3: for every 4-player combination and every transient session history
(partnership counter pc, games counter tg), the Policy B scores assigned
by generate_matchup_for_players to the three candidate splits are exactly
the spec tuples (worst partnership count, total partnership count,
absolute games difference between the two sides, sorted 4-identifier
list).  The tuples are compared lexicographically via scoreLT, lower
first; opponent and sit-out counters do not occur in the computation at
all (the endpoint never builds them). -/
theorem policyB_score_decomposition (pc : PairKey → Nat) (tg : Player → Nat)
    (p1 p2 p3 p4 : Player) :
    (mkCands pc tg (p1, p2, p3, p4)).map Cand.score =
      (partitionsOf p1 p2 p3 p4).map (fun s =>
        (worstPartnershipTerm pc s.1 s.2, totalPartnershipTerm pc s.1 s.2,
          gamesBalanceTerm tg s.1 s.2, sortStr [p1, p2, p3, p4])) := by
  simp only [mkCands, partitionsOf, worstPartnershipTerm, totalPartnershipTerm,
    gamesBalanceTerm, List.map_cons, List.map_nil, natAbs_sub_eq_max_sub_min]

theorem selFold_first_min (g : GenState) (l : List Matchup) (m : Matchup) :
    ∃ m' s', l.foldl (selStep g) (some (m, scoreMatchup g m.1 m.2)) = some (m', s') ∧
      s' = scoreMatchup g m'.1 m'.2 ∧
      (∀ c ∈ l, scoreMatchup g m'.1 m'.2 ≤ scoreMatchup g c.1 c.2) ∧
      scoreMatchup g m'.1 m'.2 ≤ scoreMatchup g m.1 m.2 ∧
      (m' = m ∨ ∃ pre post, l = pre ++ m' :: post ∧
        scoreMatchup g m'.1 m'.2 < scoreMatchup g m.1 m.2 ∧
        ∀ c ∈ pre, scoreMatchup g m'.1 m'.2 < scoreMatchup g c.1 c.2) := by
  induction l generalizing m with
  | nil =>
    exact ⟨m, scoreMatchup g m.1 m.2, rfl, rfl, by simp, le_refl _, Or.inl rfl⟩
  | cons c t ih =>
    simp only [List.foldl_cons, selStep]
    by_cases h : scoreMatchup g c.1 c.2 < scoreMatchup g m.1 m.2
    · simp only [if_pos h]
      obtain ⟨m', s', heq, hs, hmin, hlec, hpos⟩ := ih c
      refine ⟨m', s', heq, hs, ?_, ?_, ?_⟩
      · intro x hx
        rcases List.mem_cons.mp hx with rfl | hx
        · exact hlec
        · exact hmin x hx
      · exact le_of_lt (lt_of_le_of_lt hlec h)
      · right
        rcases hpos with rfl | ⟨pre, post, hteq, hlt, hpre⟩
        · exact ⟨[], t, by simp, h, by simp⟩
        · refine ⟨c :: pre, post, by simp [hteq], lt_trans hlt h, ?_⟩
          intro x hx
          rcases List.mem_cons.mp hx with rfl | hx
          · exact hlt
          · exact hpre x hx
    · simp only [if_neg h]
      obtain ⟨m', s', heq, hs, hmin, hlem, hpos⟩ := ih m
      have hmc : scoreMatchup g m.1 m.2 ≤ scoreMatchup g c.1 c.2 := le_of_not_lt h
      refine ⟨m', s', heq, hs, ?_, hlem, ?_⟩
      · intro x hx
        rcases List.mem_cons.mp hx with rfl | hx
        · exact le_trans hlem hmc
        · exact hmin x hx
      · rcases hpos with rfl | ⟨pre, post, hteq, hlt, hpre⟩
        · exact Or.inl rfl
        · right
          refine ⟨c :: pre, post, by simp [hteq], hlt, ?_⟩
          intro x hx
          rcases List.mem_cons.mp hx with rfl | hx
          · exact lt_of_lt_of_le hlt hmc
          · exact hpre x hx

/-- C2 counterexample: with the eligible list [E, A, B, C, D] and an empty
history every candidate scores 0, and generate_matchup returns
((E,A),(B,C)), whose sorted 4-tuple [A,B,C,E] is lexicographically
greater than the sorted 4-tuple [A,B,C,D] of the equally-scored candidate
((A,B),(C,D)) that is also enumerated; so ties are not broken by the
lexicographically smallest sorted 4-tuple of participant identifiers. -/
theorem policyA_tiebreak_counterexample :
    generateMatchup (freshGen ["E", "A", "B", "C", "D"]) = some (("E", "A"), ("B", "C")) ∧
    (("A", "B"), ("C", "D")) ∈ candidates ["E", "A", "B", "C", "D"] ∧
    scoreMatchup (freshGen ["E", "A", "B", "C", "D"]) ("A", "B") ("C", "D") =
      scoreMatchup (freshGen ["E", "A", "B", "C", "D"]) ("E", "A") ("B", "C") ∧
    listLT (sortStr ["A", "B", "C", "E"]) (sortStr ["A", "B", "C", "D"]) = false ∧
    listLT (sortStr ["A", "B", "C", "D"]) (sortStr ["A", "B", "C", "E"]) = true := by
  exact ⟨by decide, by decide, by decide, by decide, by decide⟩

/-- C2 (amended): among the candidates that attain the minimal Policy A
score, generate_matchup returns the first one in its enumeration order
over the given player list (team pairs in list order), which need not
have the lexicographically smallest sorted 4-tuple when the player list
is not sorted; in particular, for the sorted 4-player list [A, B, C, D]
with empty history it returns ((A,B),(C,D)). -/
theorem generate_matchup_first_of_minimal :
    (∀ g : GenState,
      (generateMatchup g = none ↔ candidates g.players = []) ∧
      ∀ m, generateMatchup g = some m →
        (∀ c ∈ candidates g.players, scoreMatchup g m.1 m.2 ≤ scoreMatchup g c.1 c.2) ∧
        ∃ pre post, candidates g.players = pre ++ m :: post ∧
          ∀ c ∈ pre, scoreMatchup g m.1 m.2 < scoreMatchup g c.1 c.2) ∧
    generateMatchup (freshGen ["A", "B", "C", "D"]) = some (("A", "B"), ("C", "D")) := by
  constructor
  · intro g
    match hcand : candidates g.players with
    | [] =>
      constructor
      · simp [generateMatchup, hcand]
      · intro m hm
        simp [generateMatchup, hcand] at hm
    | c :: t =>
      have hstep : (c :: t).foldl (selStep g) none =
          t.foldl (selStep g) (some (c, scoreMatchup g c.1 c.2)) := rfl
      obtain ⟨m', s', heq, hs, hmin, hlec, hpos⟩ := selFold_first_min g t c
      have hgen : generateMatchup g = some m' := by
        simp [generateMatchup, hcand, hstep, heq]
      constructor
      · simp [hgen, hcand]
      · intro m hm
        rw [hgen] at hm
        injection hm with hm
        subst hm
        constructor
        · intro x hx
          rcases List.mem_cons.mp hx with rfl | hx
          · exact hlec
          · exact hmin x hx
        · rcases hpos with rfl | ⟨pre, post, hteq, hlt, hpre⟩
          · exact ⟨[], t, by simp, by simp⟩
          · refine ⟨c :: pre, post, by simp [hteq], ?_⟩
            intro x hx
            rcases List.mem_cons.mp hx with rfl | hx
            · exact hlt
            · exact hpre x hx
  · decide

/-- Witness for the first-of-minimal characterization at the concrete
4-player sorted pool with empty history. -/
theorem generate_matchup_first_of_minimal_witness :
    generateMatchup (freshGen ["A", "B", "C", "D"]) = some (("A", "B"), ("C", "D")) ∧
    ((∀ c ∈ candidates (freshGen ["A", "B", "C", "D"]).players,
        scoreMatchup (freshGen ["A", "B", "C", "D"]) ("A", "B") ("C", "D") ≤
          scoreMatchup (freshGen ["A", "B", "C", "D"]) c.1 c.2) ∧
      ∃ pre post, candidates (freshGen ["A", "B", "C", "D"]).players =
          pre ++ (("A", "B"), ("C", "D")) :: post ∧
        ∀ c ∈ pre, scoreMatchup (freshGen ["A", "B", "C", "D"]) ("A", "B") ("C", "D") <
          scoreMatchup (freshGen ["A", "B", "C", "D"]) c.1 c.2) :=
  ⟨by decide, (generate_matchup_first_of_minimal.1 (freshGen ["A", "B", "C", "D"])).2
    (("A", "B"), ("C", "D")) (by decide)⟩

theorem pairKey_cases (a b : Player) : pairKey a b = (a, b) ∨ pairKey a b = (b, a) := by
  unfold pairKey
  by_cases h : strLT b a = true <;> simp [h]

theorem pairKey_eq_imp (a b c d : Player) (h : pairKey a b = pairKey c d) :
    (a = c ∧ b = d) ∨ (a = d ∧ b = c) := by
  rcases pairKey_cases a b with h1 | h1 <;> rcases pairKey_cases c d with h2 | h2 <;>
    rw [h1, h2] at h <;> injection h with e1 e2 <;> subst e1 <;> subst e2 <;> tauto

theorem bump_self [DecidableEq α] (f : α → Nat) (k : α) : bump f k k = f k + 1 := by
  simp [bump]

theorem bump_ne [DecidableEq α] (f : α → Nat) (k x : α) (h : x ≠ k) : bump f k x = f x := by
  simp [bump, h]

theorem bump_le [DecidableEq α] (f : α → Nat) (k x : α) : f x ≤ bump f k x := by
  by_cases h : x = k
  · subst h; simp [bump]
  · simp [bump, h]

/-- C7: recordRound increments partnershipCount by 1 on the two team pair
keys, opponentCount by 1 on the four cross pair keys, gamesPlayed by 1
for the four playing participants, and sitoutCount by 1 for every member
of the eligible set not among the four; every other counter entry is
unchanged and no counter decreases.  In the source the first three
updates are MatchupGenerator._update_history and the gamesPlayed update
is the session-match replay loop of get_recommendations in app.py. -/
theorem recordRound_increments (hist : Hist) (eligible : List Player) (p1 p2 p3 p4 : Player)
    (h12 : p1 ≠ p2) (h13 : p1 ≠ p3) (h14 : p1 ≠ p4)
    (h23 : p2 ≠ p3) (h24 : p2 ≠ p4) (h34 : p3 ≠ p4) :
    RecordRoundSpec hist eligible p1 p2 p3 p4 := by
  have k12_34 : pairKey p1 p2 ≠ pairKey p3 p4 := by
    intro he; rcases pairKey_eq_imp _ _ _ _ he with ⟨e1, e2⟩ | ⟨e1, e2⟩ <;> tauto
  have k13_14 : pairKey p1 p3 ≠ pairKey p1 p4 := by
    intro he; rcases pairKey_eq_imp _ _ _ _ he with ⟨e1, e2⟩ | ⟨e1, e2⟩ <;> tauto
  have k13_23 : pairKey p1 p3 ≠ pairKey p2 p3 := by
    intro he; rcases pairKey_eq_imp _ _ _ _ he with ⟨e1, e2⟩ | ⟨e1, e2⟩ <;> tauto
  have k13_24 : pairKey p1 p3 ≠ pairKey p2 p4 := by
    intro he; rcases pairKey_eq_imp _ _ _ _ he with ⟨e1, e2⟩ | ⟨e1, e2⟩ <;> tauto
  have k14_23 : pairKey p1 p4 ≠ pairKey p2 p3 := by
    intro he; rcases pairKey_eq_imp _ _ _ _ he with ⟨e1, e2⟩ | ⟨e1, e2⟩ <;> tauto
  have k14_24 : pairKey p1 p4 ≠ pairKey p2 p4 := by
    intro he; rcases pairKey_eq_imp _ _ _ _ he with ⟨e1, e2⟩ | ⟨e1, e2⟩ <;> tauto
  have k23_24 : pairKey p2 p3 ≠ pairKey p2 p4 := by
    intro he; rcases pairKey_eq_imp _ _ _ _ he with ⟨e1, e2⟩ | ⟨e1, e2⟩ <;> tauto
  unfold RecordRoundSpec recordRound
  simp only []
  refine ⟨⟨?_, ?_, ?_⟩, ⟨?_, ?_, ?_, ?_, ?_⟩, ⟨?_, ?_, ?_, ?_, ?_⟩, ⟨?_, ?_, ?_⟩,
    ?_, ?_, ?_, ?_⟩
  · rw [bump_ne _ _ _ k12_34, bump_self]
  · rw [bump_self, bump_ne _ _ _ (Ne.symm k12_34)]
  · intro k hk1 hk2
    rw [bump_ne _ _ _ hk2, bump_ne _ _ _ hk1]
  · rw [bump_ne _ _ _ k13_24, bump_ne _ _ _ k13_23, bump_ne _ _ _ k13_14, bump_self]
  · rw [bump_ne _ _ _ k14_24, bump_ne _ _ _ k14_23, bump_self,
      bump_ne _ _ _ (Ne.symm k13_14)]
  · rw [bump_ne _ _ _ k23_24, bump_self, bump_ne _ _ _ (Ne.symm k14_23),
      bump_ne _ _ _ (Ne.symm k13_23)]
  · rw [bump_self, bump_ne _ _ _ (Ne.symm k23_24), bump_ne _ _ _ (Ne.symm k14_24),
      bump_ne _ _ _ (Ne.symm k13_24)]
  · intro k hk1 hk2 hk3 hk4
    rw [bump_ne _ _ _ hk4, bump_ne _ _ _ hk3, bump_ne _ _ _ hk2, bump_ne _ _ _ hk1]
  · rw [bump_ne _ _ _ h14, bump_ne _ _ _ h13, bump_ne _ _ _ h12, bump_self]
  · rw [bump_ne _ _ _ h24, bump_ne _ _ _ h23, bump_self, bump_ne _ _ _ (Ne.symm h12)]
  · rw [bump_ne _ _ _ h34, bump_self, bump_ne _ _ _ (Ne.symm h23), bump_ne _ _ _ (Ne.symm h13)]
  · rw [bump_self, bump_ne _ _ _ (Ne.symm h34), bump_ne _ _ _ (Ne.symm h24),
      bump_ne _ _ _ (Ne.symm h14)]
  · intro p hp1 hp2 hp3 hp4
    rw [bump_ne _ _ _ hp4, bump_ne _ _ _ hp3, bump_ne _ _ _ hp2, bump_ne _ _ _ hp1]
  · intro p hin hn1 hn2 hn3 hn4
    have hmem : p ∈ (eligible.filter
        (fun q => decide (q ∉ [p1, p2, p3, p4]))).dedup := by
      simp [hin, hn1, hn2, hn3, hn4]
    rw [if_pos hmem]
  · intro p hnin
    have hmem : p ∉ (eligible.filter
        (fun q => decide (q ∉ [p1, p2, p3, p4]))).dedup := by
      simp [hnin]
    rw [if_neg hmem]
    exact Nat.add_zero _
  · intro p hp
    have hmem : p ∉ (eligible.filter
        (fun q => decide (q ∉ [p1, p2, p3, p4]))).dedup := by
      simp only [List.mem_dedup, List.mem_filter, decide_eq_true_eq]
      rintro ⟨-, hc⟩
      apply hc
      rcases hp with rfl | rfl | rfl | rfl <;> simp
    rw [if_neg hmem]
    exact Nat.add_zero _
  · intro k
    exact le_trans (bump_le _ _ _) (bump_le _ _ _)
  · intro k
    exact le_trans (le_trans (le_trans (bump_le _ _ _) (bump_le _ _ _)) (bump_le _ _ _))
      (bump_le _ _ _)
  · intro p
    exact Nat.le_add_right _ _
  · intro p
    exact le_trans (le_trans (le_trans (bump_le _ _ _) (bump_le _ _ _)) (bump_le _ _ _))
      (bump_le _ _ _)

/-- Witness for the recordRound increment contract at a concrete round:
eligible pool [A, B, C, D, E], round (A,B) vs (C,D), empty history. -/
theorem recordRound_increments_witness :
    (("A" : Player) ≠ "B" ∧ ("A" : Player) ≠ "C" ∧ ("A" : Player) ≠ "D" ∧
      ("B" : Player) ≠ "C" ∧ ("B" : Player) ≠ "D" ∧ ("C" : Player) ≠ "D") ∧
    RecordRoundSpec emptyHist ["A", "B", "C", "D", "E"] "A" "B" "C" "D" :=
  ⟨⟨by decide, by decide, by decide, by decide, by decide, by decide⟩,
    recordRound_increments emptyHist ["A", "B", "C", "D", "E"] "A" "B" "C" "D"
      (by decide) (by decide) (by decide) (by decide) (by decide) (by decide)⟩

theorem backfillOrder_perm (allActive excluded : List Player) (tg : Player → Nat) :
    List.Perm (backfillOrder allActive excluded tg) allActive := by
  have hneg : (fun x : Player × Nat => decide (x.1 ∈ excluded)) =
      (fun x : Player × Nat => !(decide (x.1 ∉ excluded))) := by
    funext x
    simp
  have hsp : List.Perm (sortBy (fun a b => decide (a.2 < b.2))
      (allActive.map (fun p => (p, tg p)))) (allActive.map (fun p => (p, tg p))) :=
    sortBy_perm _ _
  have h1 : List.Perm
      (List.filter (fun x : Player × Nat => decide (x.1 ∉ excluded))
          (sortBy (fun a b => decide (a.2 < b.2)) (allActive.map (fun p => (p, tg p)))) ++
        List.filter (fun x : Player × Nat => !(decide (x.1 ∉ excluded)))
          (sortBy (fun a b => decide (a.2 < b.2)) (allActive.map (fun p => (p, tg p)))))
      (sortBy (fun a b => decide (a.2 < b.2)) (allActive.map (fun p => (p, tg p)))) :=
    List.filter_append_perm _ _
  have h2 := List.Perm.map (fun x : Player × Nat => x.1) (h1.trans hsp)
  have h3 : List.map (fun x : Player × Nat => x.1)
      (allActive.map (fun p => (p, tg p))) = allActive := by
    rw [List.map_map]
    have hcomp : ((fun x : Player × Nat => x.1) ∘ fun p => (p, tg p)) =
        fun p : Player => p := rfl
    rw [hcomp]
    simp
  rw [h3] at h2
  unfold backfillOrder
  rw [hneg]
  exact h2

theorem eligiblePlayers_eq (allActive excluded : List Player) (tg : Player → Nat) :
    eligiblePlayers allActive excluded tg =
      (if (if (allActive.filter (fun p => decide (p ∉ excluded))).length < 4 ∧ excluded ≠ []
            then backfillOrder allActive excluded tg
            else allActive.filter (fun p => decide (p ∉ excluded))).length < 4
        then (if 4 ≤ allActive.length then some allActive else none)
        else some (if (allActive.filter (fun p => decide (p ∉ excluded))).length < 4 ∧
              excluded ≠ []
            then backfillOrder allActive excluded tg
            else allActive.filter (fun p => decide (p ∉ excluded)))) := rfl

/-- C4 counterexample: active pool [A, B, C, D, E] with exclusion set
[D, E] and all games equal; only 3 non-excluded players remain, yet the
eligible list handed to selection is the full 5-player pool — both
excluded players are re-admitted, not exactly one. -/
theorem backfill_counterexample :
    eligiblePlayers ["A", "B", "C", "D", "E"] ["D", "E"] zeroPlayerCount =
      some ["A", "B", "C", "D", "E"] ∧
    (["A", "B", "C", "D", "E"] : List Player).length = 5 := by
  exact ⟨by decide, by decide⟩

/-- C4 (amended): when fewer than 4 non-excluded players remain and the
exclusion set is non-empty (and the pool itself has at least 4 members),
the eligible list used for selection is the backfill reordering of the
ENTIRE active pool — all non-excluded players first in ascending games
order, then all excluded players in ascending games order — so every
excluded player is re-admitted to the candidate set, not just enough to
reach 4. -/
theorem backfill_readmits_all_excluded (allActive excluded : List Player) (tg : Player → Nat)
    (hlt : (allActive.filter (fun p => decide (p ∉ excluded))).length < 4)
    (hne : excluded ≠ []) (h4 : 4 ≤ allActive.length) :
    eligiblePlayers allActive excluded tg = some (backfillOrder allActive excluded tg) ∧
    List.Perm (backfillOrder allActive excluded tg) allActive ∧
    ∀ p ∈ allActive, p ∈ backfillOrder allActive excluded tg := by
  have hperm := backfillOrder_perm allActive excluded tg
  have hlen : (backfillOrder allActive excluded tg).length = allActive.length :=
    hperm.length_eq
  refine ⟨?_, hperm, ?_⟩
  · have hc : (allActive.filter (fun p => decide (p ∉ excluded))).length < 4 ∧ excluded ≠ [] :=
      ⟨hlt, hne⟩
    have hb4 : ¬ (backfillOrder allActive excluded tg).length < 4 := by omega
    rw [eligiblePlayers_eq, if_pos hc, if_neg hb4]
  · intro p hp
    exact hperm.mem_iff.mpr hp

/-- Witness for the backfill amendment at the 5-player, 2-exclusion
scenario with all games equal. -/
theorem backfill_readmits_all_excluded_witness :
    (((["A", "B", "C", "D", "E"] : List Player).filter
        (fun p => decide (p ∉ (["D", "E"] : List Player)))).length < 4 ∧
      (["D", "E"] : List Player) ≠ [] ∧
      4 ≤ (["A", "B", "C", "D", "E"] : List Player).length) ∧
    (eligiblePlayers ["A", "B", "C", "D", "E"] ["D", "E"] zeroPlayerCount =
        some (backfillOrder ["A", "B", "C", "D", "E"] ["D", "E"] zeroPlayerCount) ∧
      List.Perm (backfillOrder ["A", "B", "C", "D", "E"] ["D", "E"] zeroPlayerCount)
        ["A", "B", "C", "D", "E"] ∧
      ∀ p ∈ (["A", "B", "C", "D", "E"] : List Player),
        p ∈ backfillOrder ["A", "B", "C", "D", "E"] ["D", "E"] zeroPlayerCount) :=
  ⟨⟨by decide, by decide, by decide⟩,
    backfill_readmits_all_excluded ["A", "B", "C", "D", "E"] ["D", "E"] zeroPlayerCount
      (by decide) (by decide) (by decide)⟩

/-- C8 counterexample: with only 3 active players (empty exclusion set)
the endpoint returns the 400 error response with body
{error: Not enough players}, which is a hard client error, not the
no-content / empty result the claim describes. -/
theorem insufficient_players_counterexample :
    getRecommendations ["A", "B", "C"] [] ["A", "B", "C"] zeroPairCount zeroPlayerCount =
      Resp.err "Not enough players" 400 ∧
    getRecommendations ["A", "B", "C"] [] ["A", "B", "C"] zeroPairCount zeroPlayerCount ≠
      Resp.noContent ∧
    (Resp.err "Not enough players" 400).isErr = true := by
  exact ⟨by decide, by decide, by decide⟩

/-- C8 (amended): whenever the full active pool has fewer than 4 members,
the call returns the handled 400 JSON error response (Not enough
players) — a client-error response rather than an exception, but not a
no-content/empty result; the 204 no-content return is reserved for the
no-candidate case. -/
theorem insufficient_players_returns_error (allActive excluded shuffled : List Player)
    (pc : PairKey → Nat) (tg : Player → Nat) (h : allActive.length < 4) :
    getRecommendations allActive excluded shuffled pc tg = Resp.err "Not enough players" 400 := by
  have h8 : ¬ 8 ≤ allActive.length := by omega
  have hfl : (allActive.filter (fun p => decide (p ∉ excluded))).length < 4 :=
    lt_of_le_of_lt (List.length_filter_le _ _) h
  have hbl : (backfillOrder allActive excluded tg).length < 4 := by
    rw [(backfillOrder_perm allActive excluded tg).length_eq]
    exact h
  have h4 : ¬ 4 ≤ allActive.length := by omega
  have hep : eligiblePlayers allActive excluded tg = none := by
    rw [eligiblePlayers_eq]
    by_cases hc : (allActive.filter (fun p => decide (p ∉ excluded))).length < 4 ∧ excluded ≠ []
    · rw [if_pos hc, if_pos hbl, if_neg h4]
    · rw [if_neg hc, if_pos hfl, if_neg h4]
  unfold getRecommendations
  rw [if_neg h8, hep]

/-- Witness for the insufficient-players amendment at a 3-player pool. -/
theorem insufficient_players_returns_error_witness :
    (["A", "B", "C"] : List Player).length < 4 ∧
    getRecommendations ["A", "B", "C"] [] ["A", "B", "C"] zeroPairCount zeroPlayerCount =
      Resp.err "Not enough players" 400 :=
  ⟨by decide, insufficient_players_returns_error ["A", "B", "C"] [] ["A", "B", "C"]
    zeroPairCount zeroPlayerCount (by decide)⟩

theorem singleCourt_isErr (players : List Player) (pc : PairKey → Nat) (tg : Player → Nat) :
    (singleCourt players pc tg).isErr = false := by
  unfold singleCourt
  cases genMatchupForPlayers players pc tg <;> simp [Resp.isErr]

/-- C5 counterexample: feeding the dual-court branch a state in which the
second court's selection fails (here: a shuffled list with fewer than 8
entries, so the second group is short) shows the fallback computes the
single-court output over the FULL active pool, which differs from the
single-court output of the first group of 4 alone. -/
theorem dual_fallback_counterexample :
    dualCourtBranch ["A", "B", "C", "D", "E", "F"] ["E", "F", "C", "D", "A", "B"]
        zeroPairCount zeroPlayerCount =
      singleCourt ["A", "B", "C", "D", "E", "F"] zeroPairCount zeroPlayerCount ∧
    genMatchupForPlayers (((["E", "F", "C", "D", "A", "B"] : List Player).take 8).drop 4)
      zeroPairCount zeroPlayerCount = none ∧
    singleCourt ["A", "B", "C", "D", "E", "F"] zeroPairCount zeroPlayerCount ≠
      singleCourt ((["E", "F", "C", "D", "A", "B"] : List Player).take 4)
        zeroPairCount zeroPlayerCount := by
  exact ⟨by decide, by decide, by decide⟩

/-- C5 (amended): the dual-court branch never surfaces a hard failure
(an error response); and if the second court's selection fails while the
first succeeds, the branch degrades to the single-court output computed
over the full active pool — not over the first group of 4 only. -/
theorem dual_fallback_full_pool (players shuffled : List Player)
    (pc : PairKey → Nat) (tg : Player → Nat) :
    (dualCourtBranch players shuffled pc tg).isErr = false ∧
    (genMatchupForPlayers ((shuffled.take 8).drop 4) pc tg = none →
      genMatchupForPlayers ((shuffled.take 8).take 4) pc tg ≠ none →
      dualCourtBranch players shuffled pc tg = singleCourt players pc tg) := by
  constructor
  · unfold dualCourtBranch
    cases h1 : genMatchupForPlayers ((shuffled.take 8).take 4) pc tg with
    | none => simp [h1, Resp.isErr]
    | some fm =>
      cases h2 : genMatchupForPlayers ((shuffled.take 8).drop 4) pc tg with
      | none => simp [h1, h2, singleCourt_isErr]
      | some sm => simp [h1, h2, Resp.isErr]
  · intro hnone hsome
    unfold dualCourtBranch
    cases h1 : genMatchupForPlayers ((shuffled.take 8).take 4) pc tg with
    | none => exact absurd h1 hsome
    | some fm => simp [h1, hnone]

/-- Witness for the dual-court fallback amendment at the 6-element
shuffled state used in the counterexample. -/
theorem dual_fallback_full_pool_witness :
    (genMatchupForPlayers (((["E", "F", "C", "D", "A", "B"] : List Player).take 8).drop 4)
        zeroPairCount zeroPlayerCount = none ∧
      genMatchupForPlayers (((["E", "F", "C", "D", "A", "B"] : List Player).take 8).take 4)
        zeroPairCount zeroPlayerCount ≠ none) ∧
    ((dualCourtBranch ["A", "B", "C", "D", "E", "F"] ["E", "F", "C", "D", "A", "B"]
        zeroPairCount zeroPlayerCount).isErr = false ∧
      dualCourtBranch ["A", "B", "C", "D", "E", "F"] ["E", "F", "C", "D", "A", "B"]
          zeroPairCount zeroPlayerCount =
        singleCourt ["A", "B", "C", "D", "E", "F"] zeroPairCount zeroPlayerCount) :=
  ⟨⟨by decide, by decide⟩,
    (dual_fallback_full_pool ["A", "B", "C", "D", "E", "F"] ["E", "F", "C", "D", "A", "B"]
      zeroPairCount zeroPlayerCount).1,
    (dual_fallback_full_pool ["A", "B", "C", "D", "E", "F"] ["E", "F", "C", "D", "A", "B"]
      zeroPairCount zeroPlayerCount).2 (by decide) (by decide)⟩

theorem pairs_sublist {l : List α} {p : α × α} (h : p ∈ pairs l) : List.Sublist [p.1, p.2] l := by
  induction l with
  | nil => simp [pairs] at h
  | cons x xs ih =>
    simp only [pairs, List.mem_append, List.mem_map] at h
    rcases h with ⟨y, hy, rfl⟩ | h
    · exact List.Sublist.cons₂ x (List.singleton_sublist.mpr hy)
    · exact List.Sublist.cons x (ih h)

theorem triples_sublist {l : List α} {t : α × α × α} (h : t ∈ triples l) :
    List.Sublist [t.1, t.2.1, t.2.2] l := by
  induction l with
  | nil => simp [triples] at h
  | cons x xs ih =>
    simp only [triples, List.mem_append, List.mem_map] at h
    rcases h with ⟨p, hp, rfl⟩ | h
    · exact List.Sublist.cons₂ x (pairs_sublist hp)
    · exact List.Sublist.cons x (ih h)

theorem quads_sublist {l : List α} {q : α × α × α × α} (h : q ∈ quads l) :
    List.Sublist [q.1, q.2.1, q.2.2.1, q.2.2.2] l := by
  induction l with
  | nil => simp [quads] at h
  | cons x xs ih =>
    simp only [quads, List.mem_append, List.mem_map] at h
    rcases h with ⟨t, ht, rfl⟩ | h
    · exact List.Sublist.cons₂ x (triples_sublist ht)
    · exact List.Sublist.cons x (ih h)

theorem mem_pairs_of_sublist {l : List α} {a b : α} (h : List.Sublist [a, b] l) : (a, b) ∈ pairs l := by
  induction l with
  | nil => cases h
  | cons x xs ih =>
    cases h with
    | cons _ h => exact List.mem_append_right _ (ih h)
    | cons₂ _ h =>
      refine List.mem_append_left _ ?_
      exact List.mem_map.mpr ⟨b, List.singleton_sublist.mp h, rfl⟩

theorem mem_triples_of_sublist {l : List α} {a b c : α} (h : List.Sublist [a, b, c] l) :
    (a, b, c) ∈ triples l := by
  induction l with
  | nil => cases h
  | cons x xs ih =>
    cases h with
    | cons _ h => exact List.mem_append_right _ (ih h)
    | cons₂ _ h =>
      refine List.mem_append_left _ ?_
      exact List.mem_map.mpr ⟨(b, c), mem_pairs_of_sublist h, rfl⟩

theorem mem_quads_of_sublist {l : List α} {a b c d : α} (h : List.Sublist [a, b, c, d] l) :
    (a, b, c, d) ∈ quads l := by
  induction l with
  | nil => cases h
  | cons x xs ih =>
    cases h with
    | cons _ h => exact List.mem_append_right _ (ih h)
    | cons₂ _ h =>
      refine List.mem_append_left _ ?_
      exact List.mem_map.mpr ⟨(b, c, d), mem_triples_of_sublist h, rfl⟩

theorem pairs_nodup {l : List α} (hl : l.Nodup) : (pairs l).Nodup := by
  induction l with
  | nil => simp [pairs]
  | cons x xs ih =>
    rcases List.nodup_cons.mp hl with ⟨hx, hxs⟩
    refine List.Nodup.append ?_ (ih hxs) ?_
    · exact (List.Nodup.map (fun a b hab => by injection hab) hxs)
    · intro p hp hp'
      rcases List.mem_map.mp hp with ⟨y, hy, rfl⟩
      have hsub := pairs_sublist hp'
      exact hx (hsub.subset (by simp))

theorem triples_nodup {l : List α} (hl : l.Nodup) : (triples l).Nodup := by
  induction l with
  | nil => simp [triples]
  | cons x xs ih =>
    rcases List.nodup_cons.mp hl with ⟨hx, hxs⟩
    refine List.Nodup.append ?_ (ih hxs) ?_
    · exact (List.Nodup.map (fun a b hab => by injection hab) (pairs_nodup hxs))
    · intro t ht ht'
      rcases List.mem_map.mp ht with ⟨p, hp, rfl⟩
      have hsub := triples_sublist ht'
      exact hx (hsub.subset (by simp))

theorem quads_nodup {l : List α} (hl : l.Nodup) : (quads l).Nodup := by
  induction l with
  | nil => simp [quads]
  | cons x xs ih =>
    rcases List.nodup_cons.mp hl with ⟨hx, hxs⟩
    refine List.Nodup.append ?_ (ih hxs) ?_
    · exact (List.Nodup.map (fun a b hab => by injection hab) (triples_nodup hxs))
    · intro q hq hq'
      rcases List.mem_map.mp hq with ⟨t, ht, rfl⟩
      have hsub := quads_sublist hq'
      exact hx (hsub.subset (by simp))

theorem sublist_perm_eq {l s t : List α} (hl : l.Nodup) (hs : s.Sublist l) (ht : t.Sublist l)
    (hp : List.Perm s t) : s = t := by
  induction l generalizing s t with
  | nil =>
    rw [List.sublist_nil.mp hs, List.sublist_nil.mp ht]
  | cons a l' ih =>
    rcases List.nodup_cons.mp hl with ⟨ha, hl'⟩
    cases hs with
    | cons _ hs =>
      cases ht with
      | cons _ ht => exact ih hl' hs ht hp
      | cons₂ _ ht =>
        exfalso
        exact ha (hs.subset (hp.symm.mem_iff.mp (by simp)))
    | cons₂ _ hs =>
      cases ht with
      | cons _ ht =>
        exfalso
        exact ha (ht.subset (hp.mem_iff.mp (by simp)))
      | cons₂ _ ht =>
        rw [ih hl' hs ht hp.cons_inv]

theorem perm_pair {a b c d : α} (h : List.Perm [a, b] [c, d]) :
    (a = c ∧ b = d) ∨ (a = d ∧ b = c) := by
  have ha : a ∈ [c, d] := h.mem_iff.mp (by simp)
  rcases List.mem_cons.mp ha with rfl | ha
  · left
    exact ⟨rfl, by simpa using List.perm_singleton.mp h.cons_inv⟩
  · have ha : a = d := by simpa using ha
    subst ha
    right
    refine ⟨rfl, ?_⟩
    have h2 : List.Perm [a, b] [a, c] := h.trans (List.Perm.swap a c [])
    simpa using List.perm_singleton.mp h2.cons_inv

theorem teamEqv_swap {a b : Player} {t : Team} (h : teamEqv (b, a) t) : teamEqv (a, b) t := by
  rcases h with ⟨h1, h2⟩ | ⟨h1, h2⟩
  · exact Or.inr ⟨h2, h1⟩
  · exact Or.inl ⟨h2, h1⟩

theorem splitEqv_swap_fst {a b : Player} {t2 : Team} {m : Matchup}
    (h : splitEqv ((b, a), t2) m) : splitEqv ((a, b), t2) m := by
  rcases h with ⟨h1, h2⟩ | ⟨h1, h2⟩
  · exact Or.inl ⟨teamEqv_swap h1, h2⟩
  · exact Or.inr ⟨teamEqv_swap h1, h2⟩

theorem splitEqv_swap_snd {t1 : Team} {a b : Player} {m : Matchup}
    (h : splitEqv (t1, (b, a)) m) : splitEqv (t1, (a, b)) m := by
  rcases h with ⟨h1, h2⟩ | ⟨h1, h2⟩
  · exact Or.inl ⟨h1, teamEqv_swap h2⟩
  · exact Or.inr ⟨h1, teamEqv_swap h2⟩

theorem splitEqv_swap_teams {t1 t2 : Team} {m : Matchup}
    (h : splitEqv (t2, t1) m) : splitEqv (t1, t2) m := by
  rcases h with ⟨h1, h2⟩ | ⟨h1, h2⟩
  · exact Or.inr ⟨h2, h1⟩
  · exact Or.inl ⟨h2, h1⟩

theorem split_classify_head (p1 p2 p3 p4 x y z : Player)
    (h : List.Perm [x, y, z] [p2, p3, p4]) :
    ∃ m ∈ partitionsOf p1 p2 p3 p4, splitEqv ((p1, x), (y, z)) m := by
  have hx : x ∈ [p2, p3, p4] := h.mem_iff.mp (by simp)
  rcases List.mem_cons.mp hx with he | hx
  · -- x = p2, so [y, z] is a permutation of [p3, p4]
    rw [he] at h
    have hyz : List.Perm [y, z] [p3, p4] := h.cons_inv
    refine ⟨((p1, p2), (p3, p4)), by simp [partitionsOf], ?_⟩
    rcases perm_pair hyz with ⟨e1, e2⟩ | ⟨e1, e2⟩
    · exact Or.inl ⟨Or.inl ⟨rfl, he⟩, Or.inl ⟨e1, e2⟩⟩
    · exact Or.inl ⟨Or.inl ⟨rfl, he⟩, Or.inr ⟨e1, e2⟩⟩
  rcases List.mem_cons.mp hx with he | hx
  · -- x = p3, so [y, z] is a permutation of [p2, p4]
    rw [he] at h
    have hswap : List.Perm [p2, p3, p4] [p3, p2, p4] := List.Perm.swap p3 p2 [p4]
    have hyz : List.Perm [y, z] [p2, p4] := (h.trans hswap).cons_inv
    refine ⟨((p1, p3), (p2, p4)), by simp [partitionsOf], ?_⟩
    rcases perm_pair hyz with ⟨e1, e2⟩ | ⟨e1, e2⟩
    · exact Or.inl ⟨Or.inl ⟨rfl, he⟩, Or.inl ⟨e1, e2⟩⟩
    · exact Or.inl ⟨Or.inl ⟨rfl, he⟩, Or.inr ⟨e1, e2⟩⟩
  · -- x = p4, so [y, z] is a permutation of [p2, p3]
    have he : x = p4 := by simpa using hx
    rw [he] at h
    have hrot : List.Perm [p2, p3, p4] [p4, p2, p3] :=
      (List.Perm.cons p2 (List.Perm.swap p4 p3 [])).trans (List.Perm.swap p4 p2 [p3])
    have hyz : List.Perm [y, z] [p2, p3] := (h.trans hrot).cons_inv
    refine ⟨((p1, p4), (p2, p3)), by simp [partitionsOf], ?_⟩
    rcases perm_pair hyz with ⟨e1, e2⟩ | ⟨e1, e2⟩
    · exact Or.inl ⟨Or.inl ⟨rfl, he⟩, Or.inl ⟨e1, e2⟩⟩
    · exact Or.inl ⟨Or.inl ⟨rfl, he⟩, Or.inr ⟨e1, e2⟩⟩

theorem split_classify (w x y z p1 p2 p3 p4 : Player)
    (h : List.Perm [w, x, y, z] [p1, p2, p3, p4]) :
    ∃ m ∈ partitionsOf p1 p2 p3 p4, splitEqv ((w, x), (y, z)) m := by
  have hp1 : p1 ∈ [w, x, y, z] := h.symm.mem_iff.mp (by simp)
  rcases List.mem_cons.mp hp1 with he | hp1
  · -- p1 is in the first slot of the first team
    rw [← he] at h ⊢
    exact split_classify_head p1 p2 p3 p4 x y z h.cons_inv
  rcases List.mem_cons.mp hp1 with he | hp1
  · -- p1 is in the second slot of the first team
    rw [← he] at h ⊢
    have hsw : List.Perm [p1, w, y, z] [w, p1, y, z] := List.Perm.swap w p1 [y, z]
    have h2 : List.Perm [w, y, z] [p2, p3, p4] := (hsw.trans h).cons_inv
    obtain ⟨m, hm, hsp⟩ := split_classify_head p1 p2 p3 p4 w y z h2
    exact ⟨m, hm, splitEqv_swap_fst hsp⟩
  rcases List.mem_cons.mp hp1 with he | hp1
  · -- p1 is in the first slot of the second team
    rw [← he] at h ⊢
    have happ : List.Perm [w, x, p1, z] [p1, z, w, x] :=
      @List.perm_append_comm Player [w, x] [p1, z]
    have h2 : List.Perm [z, w, x] [p2, p3, p4] := (happ.symm.trans h).cons_inv
    obtain ⟨m, hm, hsp⟩ := split_classify_head p1 p2 p3 p4 z w x h2
    exact ⟨m, hm, splitEqv_swap_teams hsp⟩
  · -- p1 is in the second slot of the second team
    have he : p1 = z := by simpa using hp1
    rw [← he] at h ⊢
    have happ : List.Perm [w, x, y, p1] [y, p1, w, x] :=
      @List.perm_append_comm Player [w, x] [y, p1]
    have hsw : List.Perm [p1, y, w, x] [y, p1, w, x] := List.Perm.swap y p1 [w, x]
    have h2 : List.Perm [y, w, x] [p2, p3, p4] := ((hsw.trans happ.symm).trans h).cons_inv
    obtain ⟨m, hm, hsp⟩ := split_classify_head p1 p2 p3 p4 y w x h2
    exact ⟨m, hm, splitEqv_swap_snd (splitEqv_swap_teams hsp)⟩

theorem partitionsOf_players (p1 p2 p3 p4 : Player) (m : Matchup)
    (hm : m ∈ partitionsOf p1 p2 p3 p4) :
    List.Perm [m.1.1, m.1.2, m.2.1, m.2.2] [p1, p2, p3, p4] := by
  simp only [partitionsOf, List.mem_cons, List.mem_singleton] at hm
  rcases hm with rfl | rfl | rfl | hm
  · exact List.Perm.refl _
  · exact List.Perm.cons p1 (List.Perm.swap p2 p3 [p4])
  · refine List.Perm.cons p1 ?_
    exact (List.Perm.swap p2 p4 [p3]).trans (List.Perm.cons p2 (List.Perm.swap p3 p4 []))
  · cases hm

theorem partitionsOf_pairwise_ne (p1 p2 p3 p4 : Player)
    (h12 : p1 ≠ p2) (h13 : p1 ≠ p3) (h14 : p1 ≠ p4)
    (h23 : p2 ≠ p3) (h24 : p2 ≠ p4) (h34 : p3 ≠ p4) :
    List.Pairwise (fun m1 m2 => ¬ splitEqv m1 m2) (partitionsOf p1 p2 p3 p4) := by
  unfold partitionsOf
  refine List.Pairwise.cons ?_ (List.Pairwise.cons ?_
    (List.Pairwise.cons (by simp) List.Pairwise.nil))
  · intro m hm
    rcases List.mem_cons.mp hm with rfl | hm
    · intro hsp
      simp only [splitEqv, teamEqv] at hsp
      tauto
    · have hm2 : m = ((p1, p4), (p2, p3)) := by simpa using hm
      subst hm2
      intro hsp
      simp only [splitEqv, teamEqv] at hsp
      tauto
  · intro m hm
    have hm2 : m = ((p1, p4), (p2, p3)) := by simpa using hm
    subst hm2
    intro hsp
    simp only [splitEqv, teamEqv] at hsp
    tauto

theorem list_of_length_four {s : List α} (h : s.length = 4) :
    ∃ a b c d, s = [a, b, c, d] := by
  match s, h with
  | [a, b, c, d], _ => exact ⟨a, b, c, d, rfl⟩

/-- C9: over a duplicate-free eligible list of players, the candidate
enumeration is exact: it produces every unordered 4-subset exactly once,
and for each 4-subset exactly the three splits into two teams of two —
each split's players equal the 4-subset, no split is missing and none is
duplicated. -/
theorem enumeration_exact (l : List Player) (hl : l.Nodup) : EnumerationSpec l := by
  refine ⟨?_, ?_, ?_, quads_nodup hl, ?_⟩
  · intro q hq
    exact quads_sublist hq
  · intro w x y z hw hx hy hz hwx hwy hwz hxy hxz hyz
    have hnd : ([w, x, y, z] : List Player).Nodup := by
      simp [hwx, hwy, hwz, hxy, hxz, hyz]
    have hsub : ([w, x, y, z] : List Player) ⊆ l := by
      intro a ha
      rcases List.mem_cons.mp ha with rfl | ha
      · exact hw
      rcases List.mem_cons.mp ha with rfl | ha
      · exact hx
      rcases List.mem_cons.mp ha with rfl | ha
      · exact hy
      · rw [List.mem_singleton.mp ha]; exact hz
    obtain ⟨s, hsp, hsub2⟩ := (List.Nodup.subperm hnd hsub)
    have hlen : s.length = 4 := by
      have := hsp.length_eq
      simpa using this
    obtain ⟨a, b, c, d, rfl⟩ := list_of_length_four hlen
    refine ⟨(a, b, c, d), mem_quads_of_sublist hsub2, ?_⟩
    simpa [quadList] using hsp
  · intro q1 hq1 q2 hq2 hperm
    have h1 := quads_sublist hq1
    have h2 := quads_sublist hq2
    have := sublist_perm_eq hl h1 h2 hperm
    obtain ⟨a1, b1, c1, d1⟩ := q1
    obtain ⟨a2, b2, c2, d2⟩ := q2
    simp only [quadList] at this
    injection this with e1 this
    injection this with e2 this
    injection this with e3 this
    injection this with e4 this
    simp [e1, e2, e3, e4]
  · intro q hq
    have hsubq := quads_sublist hq
    have hndq : ([q.1, q.2.1, q.2.2.1, q.2.2.2] : List Player).Nodup :=
      hsubq.nodup hl
    have hne : q.1 ≠ q.2.1 ∧ q.1 ≠ q.2.2.1 ∧ q.1 ≠ q.2.2.2 ∧ q.2.1 ≠ q.2.2.1 ∧
        q.2.1 ≠ q.2.2.2 ∧ q.2.2.1 ≠ q.2.2.2 := by
      simp only [List.nodup_cons, List.mem_cons, List.mem_singleton, List.not_mem_nil,
        not_or, List.nodup_nil, and_true] at hndq
      tauto
    refine ⟨rfl, ?_, ?_, ?_⟩
    · intro m hm
      exact partitionsOf_players _ _ _ _ m hm
    · exact partitionsOf_pairwise_ne _ _ _ _ hne.1 hne.2.1 hne.2.2.1 hne.2.2.2.1
        hne.2.2.2.2.1 hne.2.2.2.2.2
    · intro t1 t2 hperm
      exact split_classify t1.1 t1.2 t2.1 t2.2 _ _ _ _ hperm

/-- Witness for the enumeration exactness contract at the concrete
5-player eligible list. -/
theorem enumeration_exact_witness :
    (["A", "B", "C", "D", "E"] : List Player).Nodup ∧
    EnumerationSpec ["A", "B", "C", "D", "E"] :=
  ⟨by decide, enumeration_exact ["A", "B", "C", "D", "E"] (by decide)⟩

theorem allMatchups_mem (l : List Player) (pc : PairKey → Nat) (tg : Player → Nat)
    (cand : Cand) (h : cand ∈ allMatchups l pc tg) :
    ∃ q ∈ quads l, List.Perm (cand.team_a ++ cand.team_b) (quadList q) ∧
      cand.team_a.length = 2 ∧ cand.team_b.length = 2 := by
  simp only [allMatchups, List.mem_flatMap] at h
  obtain ⟨q, hq, hc⟩ := h
  simp only [mkCands, List.mem_map] at hc
  obtain ⟨s, hs, rfl⟩ := hc
  refine ⟨q, hq, ?_, rfl, rfl⟩
  have hp := partitionsOf_players q.1 q.2.1 q.2.2.1 q.2.2.2 s hs
  simpa [quadList] using hp

theorem genMatchupForPlayers_mem {l : List Player} {pc : PairKey → Nat} {tg : Player → Nat}
    {cand : Cand} (h : genMatchupForPlayers l pc tg = some cand) :
    cand ∈ allMatchups l pc tg := by
  unfold genMatchupForPlayers at h
  cases hsort : sortBy (fun a b => scoreLT a.score b.score) (allMatchups l pc tg) with
  | nil => rw [hsort] at h; cases h
  | cons c rest =>
    rw [hsort] at h
    injection h with h
    have hmem : c ∈ sortBy (fun a b => scoreLT a.score b.score) (allMatchups l pc tg) := by
      rw [hsort]; exact List.mem_cons_self _ _
    rw [← h]
    exact (sortBy_perm _ _).mem_iff.mp hmem

theorem genMatchupForPlayers_some (pc : PairKey → Nat) (tg : Player → Nat)
    {l : List Player} (h4 : l.length = 4) :
    ∃ cand, genMatchupForPlayers l pc tg = some cand := by
  obtain ⟨a, b, c, d, rfl⟩ := list_of_length_four h4
  have hq : (a, b, c, d) ∈ quads [a, b, c, d] :=
    mem_quads_of_sublist (List.Sublist.refl _)
  have hex : ∃ x, x ∈ mkCands pc tg (a, b, c, d) := by
    simp only [mkCands, List.mem_map]
    exact ⟨_, ((a, b), (c, d)), by simp [partitionsOf], rfl⟩
  obtain ⟨cand0, hx⟩ := hex
  have hcand0 : cand0 ∈ allMatchups [a, b, c, d] pc tg := by
    simp only [allMatchups, List.mem_flatMap]
    exact ⟨(a, b, c, d), hq, hx⟩
  have hne : allMatchups [a, b, c, d] pc tg ≠ [] := by
    intro hempty
    rw [hempty] at hcand0
    cases hcand0
  cases hsort : sortBy (fun a b => scoreLT a.score b.score) (allMatchups [a, b, c, d] pc tg) with
  | nil =>
    exfalso
    have := (sortBy_perm (fun a b => scoreLT a.score b.score)
      (allMatchups [a, b, c, d] pc tg)).length_eq
    rw [hsort] at this
    exact hne (List.length_eq_zero.mp this.symm)
  | cons c0 rest =>
    refine ⟨c0, ?_⟩
    unfold genMatchupForPlayers
    rw [hsort]

/-- C6: with at least 8 active players (duplicate-free pool) and any
outcome of the shuffle, the call runs in dual-court mode, ignores the
exclusion set, and returns two matchups covering 8 pairwise-distinct
active players with no player shared between the courts, leaving exactly
pool-size minus 8 active players out of the cycle. -/
theorem dual_court_contract (allActive excluded shuffled : List Player)
    (pc : PairKey → Nat) (tg : Player → Nat)
    (hnd : allActive.Nodup) (h8 : 8 ≤ allActive.length)
    (hperm : List.Perm shuffled allActive) :
    DualCourtSpec allActive excluded shuffled pc tg := by
  have hslen : shuffled.length = allActive.length := hperm.length_eq
  have hsnd : shuffled.Nodup := hperm.nodup_iff.mpr hnd
  have hg1len : ((shuffled.take 8).take 4).length = 4 := by
    simp only [List.length_take]
    omega
  have hg2len : ((shuffled.take 8).drop 4).length = 4 := by
    simp only [List.length_drop, List.length_take]
    omega
  obtain ⟨fm, hfm⟩ := genMatchupForPlayers_some pc tg hg1len
  obtain ⟨sm, hsm⟩ := genMatchupForPlayers_some pc tg hg2len
  -- the two best picks cover exactly their 4-player groups
  obtain ⟨q1, hq1, hp1, hla1, hlb1⟩ := allMatchups_mem _ pc tg fm (genMatchupForPlayers_mem hfm)
  obtain ⟨q2, hq2, hp2, hla2, hlb2⟩ := allMatchups_mem _ pc tg sm (genMatchupForPlayers_mem hsm)
  have hq1eq : quadList q1 = (shuffled.take 8).take 4 := by
    refine List.Sublist.eq_of_length (quads_sublist hq1) ?_
    simp [quadList, hg1len]
  have hq2eq : quadList q2 = (shuffled.take 8).drop 4 := by
    refine List.Sublist.eq_of_length (quads_sublist hq2) ?_
    simp [quadList, hg2len]
  rw [hq1eq] at hp1
  rw [hq2eq] at hp2
  have hsel : (shuffled.take 8).take 4 ++ (shuffled.take 8).drop 4 = shuffled.take 8 :=
    List.take_append_drop 4 (shuffled.take 8)
  have hselnd : (shuffled.take 8).Nodup := (List.take_sublist 8 shuffled).nodup hsnd
  have hsellen : (shuffled.take 8).length = 8 := by
    simp only [List.length_take]
    omega
  -- the flattened player_ids list
  have hpidperm : List.Perm ((fm.team_a ++ fm.team_b) ++ (sm.team_a ++ sm.team_b))
      (shuffled.take 8) := by
    rw [← hsel]
    exact List.Perm.append hp1 hp2
  have hpidnd : ((fm.team_a ++ fm.team_b) ++ (sm.team_a ++ sm.team_b)).Nodup :=
    hpidperm.nodup_iff.mpr hselnd
  have hassoc : fm.team_a ++ fm.team_b ++ sm.team_a ++ sm.team_b =
      (fm.team_a ++ fm.team_b) ++ (sm.team_a ++ sm.team_b) := by
    simp [List.append_assoc]
  have hresp : getRecommendations allActive excluded shuffled pc tg =
      Resp.dual fm.team_a fm.team_b sm.team_a sm.team_b
        (fm.team_a ++ fm.team_b ++ sm.team_a ++ sm.team_b) := by
    unfold getRecommendations
    rw [if_pos h8]
    simp only [dualCourtBranch]
    rw [hfm, hsm]
  have hmemsel : ∀ p ∈ fm.team_a ++ fm.team_b ++ sm.team_a ++ sm.team_b, p ∈ allActive := by
    intro p hp
    rw [hassoc] at hp
    have hp8 : p ∈ shuffled.take 8 := hpidperm.mem_iff.mp hp
    exact hperm.mem_iff.mp ((List.take_sublist 8 shuffled).subset hp8)
  refine ⟨fm.team_a, fm.team_b, sm.team_a, sm.team_b,
    fm.team_a ++ fm.team_b ++ sm.team_a ++ sm.team_b, hresp, rfl, ?_, ?_, hmemsel, ?_, ?_, ?_⟩
  · rw [hassoc, hpidperm.length_eq, hsellen]
  · rw [hassoc]; exact hpidnd
  · intro p hpin
    have hdisj := (List.nodup_append.mp hpidnd).2.2
    exact fun hpc2 => hdisj hpin hpc2
  · -- count of active players left out
    have hsub : ∀ p ∈ fm.team_a ++ fm.team_b ++ sm.team_a ++ sm.team_b, p ∈ allActive :=
      hmemsel
    have hpnd : (fm.team_a ++ fm.team_b ++ sm.team_a ++ sm.team_b).Nodup := by
      rw [hassoc]; exact hpidnd
    have hfin : List.Perm
        (allActive.filter (fun p => decide (p ∈ fm.team_a ++ fm.team_b ++ sm.team_a ++ sm.team_b)))
        (fm.team_a ++ fm.team_b ++ sm.team_a ++ sm.team_b) := by
      refine (List.perm_ext_iff_of_nodup (List.Nodup.filter _ hnd) hpnd).mpr ?_
      intro p
      simp only [List.mem_filter, decide_eq_true_eq]
      constructor
      · exact fun hx => hx.2
      · exact fun hx => ⟨hsub p hx, hx⟩
    have hfillen : (allActive.filter
        (fun p => decide (p ∈ fm.team_a ++ fm.team_b ++ sm.team_a ++ sm.team_b))).length = 8 := by
      rw [hfin.length_eq, hassoc, hpidperm.length_eq, hsellen]
    have hneg2 : (fun p : Player =>
        decide (p ∉ fm.team_a ++ fm.team_b ++ sm.team_a ++ sm.team_b)) =
        (fun p : Player =>
          !(decide (p ∈ fm.team_a ++ fm.team_b ++ sm.team_a ++ sm.team_b))) := by
      funext p
      simp
    have hsplit := (List.filter_append_perm
      (fun p : Player => decide (p ∈ fm.team_a ++ fm.team_b ++ sm.team_a ++ sm.team_b))
      allActive).length_eq
    rw [List.length_append] at hsplit
    rw [hneg2, ← hsplit, hfillen]
    omega
  · unfold getRecommendations
    rw [if_pos h8, if_pos h8]

/-- Witness for the dual-court contract at a concrete 9-player pool with
the identity shuffle: exactly one active player is left out. -/
theorem dual_court_contract_witness :
    ((["A", "B", "C", "D", "E", "F", "G", "H", "I"] : List Player).Nodup ∧
      8 ≤ (["A", "B", "C", "D", "E", "F", "G", "H", "I"] : List Player).length ∧
      List.Perm ["A", "B", "C", "D", "E", "F", "G", "H", "I"]
        ["A", "B", "C", "D", "E", "F", "G", "H", "I"]) ∧
    DualCourtSpec ["A", "B", "C", "D", "E", "F", "G", "H", "I"] ["C"]
      ["A", "B", "C", "D", "E", "F", "G", "H", "I"] zeroPairCount zeroPlayerCount :=
  ⟨⟨by decide, by decide, List.Perm.refl _⟩,
    dual_court_contract ["A", "B", "C", "D", "E", "F", "G", "H", "I"] ["C"]
      ["A", "B", "C", "D", "E", "F", "G", "H", "I"] zeroPairCount zeroPlayerCount
      (by decide) (by decide) (List.Perm.refl _)⟩

theorem allMatchupsAlt_eq (l : List Player) (pc : PairKey → Nat) (tg : Player → Nat) :
    allMatchupsAlt l pc tg = (allMatchups l pc tg).map projAlt := by
  unfold allMatchupsAlt allMatchups
  rw [List.map_flatMap]
  refine congrArg _ (funext fun q => ?_)
  unfold mkCands
  rw [List.map_map]
  rfl

theorem sortAlt_eq_map (l : List Player) (pc : PairKey → Nat) (tg : Player → Nat) :
    sortBy (fun a b : CandAlt => scoreLT a.score b.score) (allMatchupsAlt l pc tg) =
      (sortBy (fun a b : Cand => scoreLT a.score b.score) (allMatchups l pc tg)).map projAlt := by
  rw [allMatchupsAlt_eq]
  exact sortBy_map (fun a b : Cand => scoreLT a.score b.score)
    (fun a b : CandAlt => scoreLT a.score b.score) projAlt (fun a b => rfl) _

/-- C10: the alternatives list of the single-court response is computed by
a second enumeration that is equivalent to the best-pick enumeration (it
is the projAlt image of it); the returned recommendations list is sorted
ascending under the same Policy B score comparison, has at most 10
entries, and its first entry carries exactly the best pick's team_a and
team_b. -/
theorem alternatives_equiv_best (l : List Player) (pc : PairKey → Nat) (tg : Player → Nat)
    (best : Cand) (h : genMatchupForPlayers l pc tg = some best) :
    allMatchupsAlt l pc tg = (allMatchups l pc tg).map projAlt ∧
    List.Pairwise (leOf (fun a b : CandAlt => scoreLT a.score b.score)) (recsList l pc tg) ∧
    (recsList l pc tg).length ≤ 10 ∧
    ∃ r rest, recsList l pc tg = r :: rest ∧ r.team_a = best.team_a ∧
      r.team_b = best.team_b := by
  refine ⟨allMatchupsAlt_eq l pc tg, ?_, ?_, ?_⟩
  · have hpair := sortBy_pairwise (fun a b : CandAlt => scoreLT a.score b.score)
      (fun a b hab => scoreLT_asymm _ _ hab)
      (fun a b c hac => scoreLT_negtrans _ _ _ hac)
      (allMatchupsAlt l pc tg)
    exact List.Pairwise.sublist (List.take_sublist 10 _) hpair
  · exact List.length_take_le 10 _
  · unfold genMatchupForPlayers at h
    unfold recsList
    rw [sortAlt_eq_map]
    cases hsort : sortBy (fun a b : Cand => scoreLT a.score b.score) (allMatchups l pc tg) with
    | nil => rw [hsort] at h; cases h
    | cons c rest =>
      rw [hsort] at h
      injection h with h
      refine ⟨projAlt c, ((rest.map projAlt).take 9), ?_, ?_, ?_⟩
      · rw [List.map_cons, List.take_succ_cons]
      · rw [← h]; rfl
      · rw [← h]; rfl

/-- Witness for the alternatives contract at a 4-player pool with empty
session counters. -/
theorem alternatives_equiv_best_witness :
    genMatchupForPlayers ["A", "B", "C", "D"] zeroPairCount zeroPlayerCount =
      some { score := (0, 0, 0, ["A", "B", "C", "D"]), team_a := ["A", "B"],
             team_b := ["C", "D"], count_a := 0, count_b := 0,
             players := ["A", "B", "C", "D"] } ∧
    (allMatchupsAlt ["A", "B", "C", "D"] zeroPairCount zeroPlayerCount =
        (allMatchups ["A", "B", "C", "D"] zeroPairCount zeroPlayerCount).map projAlt ∧
      List.Pairwise (leOf (fun a b : CandAlt => scoreLT a.score b.score))
        (recsList ["A", "B", "C", "D"] zeroPairCount zeroPlayerCount) ∧
      (recsList ["A", "B", "C", "D"] zeroPairCount zeroPlayerCount).length ≤ 10 ∧
      ∃ r rest, recsList ["A", "B", "C", "D"] zeroPairCount zeroPlayerCount = r :: rest ∧
        r.team_a = (["A", "B"] : List Player) ∧ r.team_b = (["C", "D"] : List Player)) :=
  ⟨by decide, alternatives_equiv_best ["A", "B", "C", "D"] zeroPairCount zeroPlayerCount
    { score := (0, 0, 0, ["A", "B", "C", "D"]), team_a := ["A", "B"],
      team_b := ["C", "D"], count_a := 0, count_b := 0,
      players := ["A", "B", "C", "D"] } (by decide)⟩

end Badminton
